import Mathlib

/-!
Verification of the MapStack document-revision and roadmap-versioning core.

Python strings are modelled as `List Char` (a sequence of code points,
restricted to the ASCII fragment the repository exercises); Python `dict`s
built by comprehension are modelled as insertion-ordered association lists
with last-wins update, matching CPython dict semantics.  Fallible Python
code is modelled with `Option`/`Except`.
-/

namespace MapStack

/-- Python strings are sequences of characters. -/
abbrev PyStr := List Char

/-- Model of Python `str.split(sep)` for a single-character separator:
splits at every occurrence, keeping empty fragments, and yields `[""]`
on the empty string. -/
def pySplit (sep : Char) : PyStr → List PyStr
  | [] => [[]]
  | c :: rest =>
    let r := pySplit sep rest
    if c = sep then [] :: r
    else
      match r with
      | [] => [[c]]
      | h :: t => (c :: h) :: t

/-- Joins fragments with a separator; inverse of `pySplit`. -/
def pyJoin (sep : Char) : List PyStr → PyStr
  | [] => []
  | [p] => p
  | p :: ps => p ++ sep :: pyJoin sep ps

/-- ASCII whitespace accepted (and stripped) by CPython `int(str)`. -/
def isPySpace (c : Char) : Bool :=
  c = ' ' || c = '\t' || c = '\n' || c = '\r' || c = '\x0b' || c = '\x0c'

/-- Strips leading and trailing ASCII whitespace. -/
def stripWs (s : PyStr) : PyStr :=
  ((s.dropWhile isPySpace).reverse.dropWhile isPySpace).reverse

/-- Checks that a character list is a nonempty run of ASCII digits in which
single underscores may appear between digits (CPython integer-literal
grouping: no leading, trailing or doubled underscore). -/
def intDigits : List Char → Bool
  | [] => false
  | [c] => c.isDigit
  | c :: '_' :: rest => c.isDigit && intDigits rest
  | c :: rest => c.isDigit && intDigits rest

/-- Numeric value of a run of ASCII digits. -/
def digitsVal (s : List Char) : Nat :=
  s.foldl (fun a c => 10 * a + (c.toNat - 48)) 0

/-- Model of CPython `int(str)` on the ASCII fragment: optional surrounding
whitespace, an optional `+`/`-` sign, then digits with optional single
underscores between them.  Returns `none` where CPython raises
`ValueError`. -/
def pyIntParse (s : PyStr) : Option Int :=
  match stripWs s with
  | [] => none
  | c :: rest =>
    if c = '+' then
      if intDigits rest then some (digitsVal (rest.filter (fun x => x ≠ '_'))) else none
    else if c = '-' then
      if intDigits rest then some (-(digitsVal (rest.filter (fun x => x ≠ '_')) : Int))
      else none
    else
      if intDigits (c :: rest) then some (digitsVal ((c :: rest).filter (fun x => x ≠ '_')))
      else none

/-! ## VersionUtility (src/backend/src/services/document.py) -/

/-- Embedding of `VersionUtility.parse_version`: split on `"."`, require
exactly three parts, convert each with `int(...)`.  `none` models the
`ValueError` raised by the source. -/
def parse_version (v : PyStr) : Option (Int × Int × Int) :=
  match pySplit '.' v with
  | [a, b, c] =>
    match pyIntParse a, pyIntParse b, pyIntParse c with
    | some x, some y, some z => some (x, y, z)
    | _, _, _ => none
  | _ => none

/-- Decimal rendering of an integer, as Python `str(int)` produces. -/
def intRepr (i : Int) : PyStr := (toString i).data

/-- Embedding of `VersionUtility.format_version`. -/
def format_version (major minor patch : Int) : PyStr :=
  intRepr major ++ '.' :: intRepr minor ++ '.' :: intRepr patch

/-- Embedding of `VersionUtility.increment_version`; `none` models the
`ValueError` on an unparsable version or unrecognized bump kind. -/
def increment_version (v : PyStr) (version_type : PyStr) : Option PyStr :=
  match parse_version v with
  | none => none
  | some (major, minor, patch) =>
    if version_type = "major".data then some (format_version (major + 1) 0 0)
    else if version_type = "minor".data then some (format_version major (minor + 1) 0)
    else if version_type = "patch".data then some (format_version major minor (patch + 1))
    else none

/-- Embedding of `VersionUtility.compare_versions`; `none` models the
propagated `ValueError` when either side fails to parse. -/
def compare_versions (v1 v2 : PyStr) : Option Int :=
  match parse_version v1, parse_version v2 with
  | some (a1, b1, c1), some (a2, b2, c2) =>
    if a1 < a2 then some (-1)
    else if a1 > a2 then some 1
    else if b1 < b2 then some (-1)
    else if b1 > b2 then some 1
    else if c1 < c2 then some (-1)
    else if c1 > c2 then some 1
    else some 0
  | _, _ => none

/-- Embedding of `VersionUtility.is_valid_version`. -/
def is_valid_version (v : PyStr) : Bool :=
  (parse_version v).isSome

/-! ## Claim-side characterizations for version validity -/

/-- Shape demanded by the specification for a semver string: exactly three
dot-separated parts, each a nonempty run of plain ASCII digits (hence no
leading `+`/`-`, no whitespace, no underscores, no metadata). -/
def specSemverShape (s : PyStr) : Bool :=
  match pySplit '.' s with
  | [a, b, c] =>
    (decide (a ≠ []) && a.all Char.isDigit) &&
    (decide (b ≠ []) && b.all Char.isDigit) &&
    (decide (c ≠ []) && c.all Char.isDigit)
  | _ => false

/-- Declarative description of a digit run with single-underscore grouping:
a nonempty list of nonempty digit groups joined by `_`. -/
def digitGroups (body : PyStr) : Prop :=
  ∃ gs : List PyStr, gs ≠ [] ∧ (∀ g ∈ gs, g ≠ [] ∧ ∀ c ∈ g, c.isDigit) ∧
    body = pyJoin '_' gs

/-- Declarative description of the strings CPython `int()` accepts:
optionally stripped of surrounding whitespace, an optional sign, then a
grouped digit run. -/
def intLiteralShape (p : PyStr) : Prop :=
  match stripWs p with
  | [] => False
  | c :: r =>
    if c = '+' then digitGroups r
    else if c = '-' then digitGroups r
    else digitGroups (c :: r)

/-! ## Content snapshots and dict modelling -/

/-- One section of a document content snapshot: `{title, content}`. -/
structure DocSection where
  title : PyStr
  content : PyStr
deriving DecidableEq, Repr

/-- A document content snapshot `{title, sections}`.  The top-level title is
optional because the source reads it with `dict.get` / `"title" in content`
(a missing key behaves as `None`). -/
structure DocContent where
  title : Option PyStr
  sections : List DocSection
deriving DecidableEq, Repr

/-- Association list standing for a Python `dict` from section title to
content; insertion ordered. -/
abbrev SectionMap := List (PyStr × PyStr)

/-- Model of Python dict assignment `m[k] = v`: updates the value in place
when the key exists (keeping its position), otherwise appends. -/
def dictInsert (m : SectionMap) (k v : PyStr) : SectionMap :=
  if m.any (fun p => decide (p.1 = k)) then
    m.map (fun p => if p.1 = k then (k, v) else p)
  else m ++ [(k, v)]

/-- Model of the dict comprehension `{s["title"]: s["content"] for s in ss}`:
keys ordered by first occurrence, value from the last occurrence. -/
def sectionMapOf (ss : List DocSection) : SectionMap :=
  ss.foldl (fun m s => dictInsert m s.title s.content) []

/-- Model of Python `m.get(k)` on a section map. -/
def dictGet (m : SectionMap) (k : PyStr) : Option PyStr :=
  (m.find? (fun p => decide (p.1 = k))).map Prod.snd

/-- Model of Python `set(ks1) == set(ks2)`. -/
def keysSetEq (l1 l2 : List PyStr) : Bool :=
  l1.all (fun k => l2.contains k) && l2.all (fun k => l1.contains k)

/-- Loop of `VersionUtility.determine_version_type` over the entries of the
old section map, tracking the `significant_changes` flag. -/
def sectionScan (newMap : SectionMap) : SectionMap → Bool → PyStr
  | [], significant => if significant then "patch".data else "patch".data
  | (t, oc) :: rest, significant =>
    let nc := (dictGet newMap t).getD []
    if oc ≠ nc then
      if 50 < ((oc.length : Int) - (nc.length : Int)).natAbs then "minor".data
      else sectionScan newMap rest true
    else sectionScan newMap rest significant

/-- Embedding of `VersionUtility.determine_version_type`. -/
def determine_version_type (old new : DocContent) : PyStr :=
  if old.title ≠ new.title then "minor".data
  else if old.sections.length ≠ new.sections.length then "minor".data
  else
    let oldMap := sectionMapOf old.sections
    let newMap := sectionMapOf new.sections
    if ¬ (keysSetEq (oldMap.map Prod.fst) (newMap.map Prod.fst) = true) then "minor".data
    else sectionScan newMap oldMap false

/-! ## DocumentDiffUtility -/

/-- Entry of the `modified` diff group: `{title, old_content, new_content}`. -/
structure ModifiedSection where
  title : PyStr
  old_content : PyStr
  new_content : PyStr
deriving DecidableEq, Repr

/-- Result shape of `compute_section_diff`. -/
structure SectionDiffRes where
  added : List DocSection
  removed : List DocSection
  modified : List ModifiedSection
deriving DecidableEq, Repr

/-- Embedding of `DocumentDiffUtility.compute_section_diff`.  The source
iterates `set(old) & set(new)` for the modified group, whose order CPython
leaves unspecified; the model fixes old-map insertion order. -/
def compute_section_diff (old_sections new_sections : List DocSection) : SectionDiffRes :=
  let oldMap := sectionMapOf old_sections
  let newMap := sectionMapOf new_sections
  { added := newMap.filterMap (fun p =>
      if (dictGet oldMap p.1).isNone then some ⟨p.1, p.2⟩ else none)
    removed := oldMap.filterMap (fun p =>
      if (dictGet newMap p.1).isNone then some ⟨p.1, p.2⟩ else none)
    modified := oldMap.filterMap (fun p =>
      match dictGet newMap p.1 with
      | some nc => if p.2 ≠ nc then some ⟨p.1, p.2, nc⟩ else none
      | none => none) }

/-- Pydantic model `DocumentRevisionDiff`. -/
structure DocumentRevisionDiff where
  from_version : PyStr
  to_version : PyStr
  sections_added : List DocSection
  sections_removed : List DocSection
  sections_modified : List ModifiedSection
deriving DecidableEq, Repr

/-- Embedding of `DocumentDiffUtility.create_revision_diff`: wraps the
section diff, leaving both version labels empty for the caller to fill. -/
def create_revision_diff (old_content new_content : DocContent) : DocumentRevisionDiff :=
  let diff := compute_section_diff old_content.sections new_content.sections
  { from_version := []
    to_version := []
    sections_added := diff.added
    sections_removed := diff.removed
    sections_modified := diff.modified }

/-! ## C1: characterization of the classifier -/

/-- Some section present in both maps has differing content with an absolute
length difference above 50. -/
def bigSharedChange (oldMap newMap : SectionMap) : Prop :=
  ∃ p ∈ oldMap, ∃ nc, dictGet newMap p.1 = some nc ∧ p.2 ≠ nc ∧
    50 < ((p.2.length : Int) - (nc.length : Int)).natAbs

/-- The condition under which the claim says the classifier returns minor:
differing top-level titles, differing section counts, differing title sets,
or some shared section changed by more than 50 characters. -/
def minorCond (old new : DocContent) : Prop :=
  old.title ≠ new.title ∨ old.sections.length ≠ new.sections.length ∨
    ¬ (keysSetEq ((sectionMapOf old.sections).map Prod.fst)
        ((sectionMapOf new.sections).map Prod.fst) = true) ∨
    bigSharedChange (sectionMapOf old.sections) (sectionMapOf new.sections)

/-! ## C9: revision diff -/

/-! ## PEP 440 versions (model of the third-party `packaging.version` used
by `clone_roadmap_for_new_version`), restricted to the ASCII fragment.
Parsing follows the canonical PEP 440 regular expression (case-insensitive,
surrounding whitespace allowed, optional `v` prefix), including its greedy
treatment of optional separators; comparison follows `packaging`'s
`_cmpkey`. -/

/-- A segment of a PEP 440 local version: numeric segments compare as
numbers and above alphanumeric segments. -/
inductive LocalSeg where
  | num (n : Nat)
  | str (s : PyStr)
deriving DecidableEq, Repr

/-- Parsed PEP 440 version: epoch, release tuple, pre-release (rank of the
normalized letter `a < b < rc` and number), post, dev, and local segments. -/
structure Pep440 where
  epoch : Nat
  release : List Nat
  pre : Option (Nat × Nat)
  post : Option Nat
  dev : Option Nat
  localSegs : Option (List LocalSeg)
deriving DecidableEq, Repr

/-- Separator characters `-`, `_`, `.` allowed between PEP 440 pieces. -/
def isSep (c : Char) : Bool := c = '-' || c = '_' || c = '.'

/-- Lowercase ASCII alphanumeric, the alphabet of local version segments. -/
def isAlnumLower (c : Char) : Bool := c.isDigit || ('a' ≤ c && c ≤ 'z')

/-- Rest of the release segment: `(.digits)*`, stopping before a dot not
followed by a digit.  Structurally recursive on a fuel argument so that it
evaluates inside the kernel; `releaseMore` supplies fuel that always
suffices (each iteration consumes at least two characters). -/
def releaseMoreF : Nat → List Nat → PyStr → List Nat × PyStr
  | 0, acc, s => (acc, s)
  | fuel + 1, acc, s =>
    match s with
    | '.' :: r =>
      let d := r.takeWhile Char.isDigit
      if d.isEmpty then (acc, s)
      else releaseMoreF fuel (acc ++ [digitsVal d]) (r.dropWhile Char.isDigit)
    | _ => (acc, s)

def releaseMore (acc : List Nat) (s : PyStr) : List Nat × PyStr :=
  releaseMoreF s.length acc s

/-- First label of `labels` (listed longest first) that prefixes `s`,
with its rank and the rest of the input. -/
def parseLabel : List (PyStr × Nat) → PyStr → Option (Nat × PyStr)
  | [], _ => none
  | (lit, rank) :: rest, s =>
    if lit.isPrefixOf s then some (rank, s.drop lit.length) else parseLabel rest s

/-- Optional separator (consumed greedily, as the regex does) followed by an
optional number; a missing number counts as 0. -/
def parseNumSuffix (s : PyStr) : Nat × PyStr :=
  match s with
  | [] => (0, [])
  | c :: r =>
    if isSep c then
      let d := r.takeWhile Char.isDigit
      if d.isEmpty then (0, r) else (digitsVal d, r.dropWhile Char.isDigit)
    else
      let d := s.takeWhile Char.isDigit
      if d.isEmpty then (0, s) else (digitsVal d, s.dropWhile Char.isDigit)

/-- Pre-release labels, longest first, with their normalized ranks
(`a` = 0, `b` = 1, `rc` = 2). -/
def preLabels : List (PyStr × Nat) :=
  [("preview".data, 2), ("alpha".data, 0), ("beta".data, 1), ("pre".data, 2),
   ("rc".data, 2), ("a".data, 0), ("b".data, 1), ("c".data, 2)]

/-- Post-release labels, longest first (rank unused). -/
def postLabels : List (PyStr × Nat) :=
  [("post".data, 0), ("rev".data, 0), ("r".data, 0)]

/-- Dev-release label. -/
def devLabels : List (PyStr × Nat) := [("dev".data, 0)]

/-- Optional separator, then a label from `labels`, then an optional number;
fails without consuming anything when no label is present. -/
def parseLabeledNum (labels : List (PyStr × Nat)) (s : PyStr) :
    Option (Nat × Nat) × PyStr :=
  let attempt : Option (Nat × PyStr) :=
    match s with
    | c :: r => if isSep c then parseLabel labels r else parseLabel labels s
    | [] => none
  match attempt with
  | some (rank, r2) =>
    let (n, r3) := parseNumSuffix r2
    (some (rank, n), r3)
  | none => (none, s)

/-- PEP 440 pre-release group. -/
def parsePre (s : PyStr) : Option (Nat × Nat) × PyStr := parseLabeledNum preLabels s

/-- PEP 440 post-release group: either `-N` or a post label with optional
number. -/
def parsePost (s : PyStr) : Option Nat × PyStr :=
  let word : Option Nat × PyStr :=
    match parseLabeledNum postLabels s with
    | (some (_, n), r) => (some n, r)
    | (none, r) => (none, r)
  match s with
  | '-' :: r =>
    let d := r.takeWhile Char.isDigit
    if d.isEmpty then word else (some (digitsVal d), r.dropWhile Char.isDigit)
  | _ => word

/-- PEP 440 dev-release group. -/
def parseDev (s : PyStr) : Option Nat × PyStr :=
  match parseLabeledNum devLabels s with
  | (some (_, n), r) => (some n, r)
  | (none, r) => (none, r)

/-- Classifies a local version segment. -/
def mkLocalSeg (seg : PyStr) : LocalSeg :=
  if seg.all Char.isDigit then .num (digitsVal seg) else .str seg

/-- Further local segments: `([-_.] alnum+)*`, fueled like `releaseMoreF`. -/
def localLoopF : Nat → PyStr → List LocalSeg × PyStr
  | 0, s => ([], s)
  | fuel + 1, s =>
    match s with
    | [] => ([], [])
    | c :: r =>
      if isSep c then
        let seg := r.takeWhile isAlnumLower
        if seg.isEmpty then ([], c :: r)
        else
          let (segs, rest) := localLoopF fuel (r.dropWhile isAlnumLower)
          (mkLocalSeg seg :: segs, rest)
      else ([], c :: r)

def localLoop (s : PyStr) : List LocalSeg × PyStr :=
  localLoopF s.length s

/-- PEP 440 local version: `+ alnum+ ([-_.] alnum+)*`; `none` when a `+` is
present but malformed. -/
def parseLocal (s : PyStr) : Option (Option (List LocalSeg) × PyStr) :=
  match s with
  | '+' :: r =>
    let seg := r.takeWhile isAlnumLower
    if seg.isEmpty then none
    else
      let (segs, rest) := localLoop (r.dropWhile isAlnumLower)
      some (some (mkLocalSeg seg :: segs), rest)
  | _ => some (none, s)

/-- Model of `packaging.version.parse`: `none` models `InvalidVersion`. -/
def pep440Parse (s : PyStr) : Option Pep440 :=
  let t0 := (stripWs s).map Char.toLower
  let t1 := if t0.head? = some 'v' then t0.tail else t0
  let ed := t1.takeWhile Char.isDigit
  let er := t1.dropWhile Char.isDigit
  let ep : Nat × PyStr :=
    if !ed.isEmpty && er.head? = some '!' then (digitsVal ed, er.tail) else (0, t1)
  let rd := ep.2.takeWhile Char.isDigit
  if rd.isEmpty then none
  else
    let (release, t3) := releaseMore [digitsVal rd] (ep.2.dropWhile Char.isDigit)
    let (pre, t4) := parsePre t3
    let (post, t5) := parsePost t4
    let (dev, t6) := parseDev t5
    match parseLocal t6 with
    | none => none
    | some (lcl, t7) =>
      if t7.isEmpty then some ⟨ep.1, release, pre, post, dev, lcl⟩ else none

/-! ### PEP 440 comparison (`packaging`'s `_cmpkey`) -/

/-- Release tuples are compared with trailing zeros removed. -/
def trimZeros (l : List Nat) : List Nat :=
  (l.reverse.dropWhile (fun n => n == 0)).reverse

/-- Python tuple comparison on number lists (a strict prefix is smaller). -/
def listNatCmp : List Nat → List Nat → Ordering
  | [], [] => .eq
  | [], _ :: _ => .lt
  | _ :: _, [] => .gt
  | a :: as, b :: bs =>
    match compare a b with
    | .eq => listNatCmp as bs
    | o => o

/-- Python string comparison by code point. -/
def strCmp : PyStr → PyStr → Ordering
  | [], [] => .eq
  | [], _ :: _ => .lt
  | _ :: _, [] => .gt
  | a :: as, b :: bs =>
    match compare a.toNat b.toNat with
    | .eq => strCmp as bs
    | o => o

/-- Pre-release key: `negInf` below all, `inf` above all. -/
inductive PreKey where
  | negInf
  | val (rank n : Nat)
  | inf
deriving DecidableEq, Repr

/-- The pre-release key: a dev release with no pre and no post sorts below
everything; a missing pre otherwise sorts above. -/
def preKeyOf (v : Pep440) : PreKey :=
  match v.pre with
  | some (r, n) => .val r n
  | none => if v.post = none ∧ v.dev ≠ none then .negInf else .inf

def preKeyCmp : PreKey → PreKey → Ordering
  | .negInf, .negInf => .eq
  | .negInf, _ => .lt
  | _, .negInf => .gt
  | .val r1 n1, .val r2 n2 => (compare r1 r2).then (compare n1 n2)
  | .val _ _, .inf => .lt
  | .inf, .val _ _ => .gt
  | .inf, .inf => .eq

/-- Post key: a missing post release sorts below any present one. -/
def postKeyCmp : Option Nat → Option Nat → Ordering
  | none, none => .eq
  | none, some _ => .lt
  | some _, none => .gt
  | some a, some b => compare a b

/-- Dev key: a missing dev release sorts above any present one. -/
def devKeyCmp : Option Nat → Option Nat → Ordering
  | none, none => .eq
  | none, some _ => .gt
  | some _, none => .lt
  | some a, some b => compare a b

def localSegCmp : LocalSeg → LocalSeg → Ordering
  | .num a, .num b => compare a b
  | .num _, .str _ => .gt
  | .str _, .num _ => .lt
  | .str a, .str b => strCmp a b

def localListCmp : List LocalSeg → List LocalSeg → Ordering
  | [], [] => .eq
  | [], _ :: _ => .lt
  | _ :: _, [] => .gt
  | a :: as, b :: bs =>
    match localSegCmp a b with
    | .eq => localListCmp as bs
    | o => o

/-- Local key: a missing local version sorts below any present one. -/
def localKeyCmp : Option (List LocalSeg) → Option (List LocalSeg) → Ordering
  | none, none => .eq
  | none, some _ => .lt
  | some _, none => .gt
  | some a, some b => localListCmp a b

/-- Model of comparison between two parsed PEP 440 versions
(lexicographic on `packaging`'s `_cmpkey` tuple). -/
def pep440Cmp (a b : Pep440) : Ordering :=
  (compare a.epoch b.epoch).then
    ((listNatCmp (trimZeros a.release) (trimZeros b.release)).then
      ((preKeyCmp (preKeyOf a) (preKeyOf b)).then
        ((postKeyCmp a.post b.post).then
          ((devKeyCmp a.dev b.dev).then
            (localKeyCmp a.localSegs b.localSegs)))))

/-- Model of `Version.__le__`. -/
def pep440Le (a b : Pep440) : Bool := pep440Cmp a b ≠ .gt

/-! ## Roadmap data model (src/backend/src/db/models/roadmap.py)

Row ids are modelled as `Nat` allocated from a per-world counter (the
database assigns fresh primary keys at flush); node positions are `Float`
columns on which the service does no arithmetic, so they are carried as
opaque `Int` values; the `meta_data` JSON bag is carried as an opaque
string. -/

structure Roadmap where
  id : Nat
  theme_id : Nat
  version : PyStr
  title : PyStr
  description : Option PyStr
  is_published : Bool
  is_latest : Bool
  published_at : Option Nat
deriving DecidableEq, Repr

structure RoadmapNode where
  id : Nat
  roadmap_id : Nat
  handle : PyStr
  node_type : PyStr
  title : PyStr
  description : Option PyStr
  position_x : Int
  position_y : Int
  meta_data : PyStr
  is_required : Bool
deriving DecidableEq, Repr

structure RoadmapEdge where
  id : Nat
  roadmap_id : Nat
  handle : PyStr
  source_node_id : Nat
  target_node_id : Nat
  edge_type : PyStr
  source_handle : Option PyStr
  target_handle : Option PyStr
  meta_data : PyStr
deriving DecidableEq, Repr

/-- Relational state visible to the roadmap service: themes (by id),
roadmaps, nodes, edges, and the fresh-id counter. -/
structure World where
  themes : List Nat
  roadmaps : List Roadmap
  nodes : List RoadmapNode
  edges : List RoadmapEdge
  nextId : Nat
deriving DecidableEq, Repr

/-- Embedding of `get_roadmap`: first row whose id matches. -/
def get_roadmap (w : World) (roadmap_id : Nat) : Option Roadmap :=
  w.roadmaps.find? (fun r => decide (r.id = roadmap_id))

/-- Nodes belonging to a roadmap, in row order. -/
def roadmapNodes (w : World) (roadmap_id : Nat) : List RoadmapNode :=
  w.nodes.filter (fun n => decide (n.roadmap_id = roadmap_id))

/-- Edges belonging to a roadmap, in row order. -/
def roadmapEdges (w : World) (roadmap_id : Nat) : List RoadmapEdge :=
  w.edges.filter (fun e => decide (e.roadmap_id = roadmap_id))

/-! ## publish_roadmap (src/backend/src/services/roadmap.py) -/

inductive PublishErr where
  | roadmapNotFound
  | alreadyPublished
  | emptyRoadmap
  | disconnectedRoadmap
deriving DecidableEq, Repr

/-- Embedding of `publish_roadmap`; `now` stands for `datetime.now()`.
Errors model the raised `HTTPException`s. -/
def publish_roadmap (w : World) (roadmap_id : Nat) (now : Nat) :
    Except PublishErr (World × Roadmap) :=
  match get_roadmap w roadmap_id with
  | none => .error .roadmapNotFound
  | some rm =>
    if rm.is_published then .error .alreadyPublished
    else
      let node_count := (roadmapNodes w roadmap_id).length
      if node_count = 0 then .error .emptyRoadmap
      else
        let edge_count := (roadmapEdges w roadmap_id).length
        if 1 < node_count ∧ edge_count = 0 then .error .disconnectedRoadmap
        else
          let rm2 := { rm with is_published := true, published_at := some now }
          let w2 := { w with
            roadmaps := w.roadmaps.map (fun r => if r.id = roadmap_id then rm2 else r) }
          .ok (w2, rm2)

/-! ## clone_roadmap_for_new_version (src/backend/src/services/roadmap.py) -/

inductive CloneErr where
  | roadmapNotFound
  | sourceNotPublished
  | invalidVersion
  | versionNotNewer
  | themeNotFound
  | keyError
deriving DecidableEq, Repr

/-- Embedding of the version validation in `clone_roadmap_for_new_version`:
`packaging.version.parse` on both strings (either failure raises
`InvalidVersion`), then `<=` on the parsed versions. -/
inductive VersionCheck where
  | ok
  | notNewer
  | invalid
deriving DecidableEq, Repr

def clone_version_check (new_version orig_version : PyStr) : VersionCheck :=
  match pep440Parse new_version, pep440Parse orig_version with
  | some nv, some ov => if pep440Le nv ov then .notNewer else .ok
  | _, _ => .invalid

/-- Deep-copies the source nodes onto the new roadmap, allocating fresh ids
and building the old-id → new-id association (in order). -/
def cloneNodes (new_rid : Nat) : List RoadmapNode → Nat →
    List RoadmapNode × List (Nat × Nat) × Nat
  | [], ctr => ([], [], ctr)
  | n :: rest, ctr =>
    let n2 : RoadmapNode :=
      { id := ctr, roadmap_id := new_rid, handle := n.handle,
        node_type := n.node_type, title := n.title, description := n.description,
        position_x := n.position_x, position_y := n.position_y,
        meta_data := n.meta_data, is_required := n.is_required }
    let (ns, m, c) := cloneNodes new_rid rest (ctr + 1)
    (n2 :: ns, (n.id, ctr) :: m, c)

/-- Model of the Python dict lookup `node_id_map[k]` (last assignment
wins). -/
def mapLookup (m : List (Nat × Nat)) (k : Nat) : Option Nat :=
  m.foldl (fun acc p => if p.1 = k then some p.2 else acc) none

/-- Deep-copies the source edges, rewriting both endpoints through the id
map; `none` models the `KeyError` on an endpoint missing from the map. -/
def cloneEdges (new_rid : Nat) (m : List (Nat × Nat)) :
    List RoadmapEdge → Nat → Option (List RoadmapEdge × Nat)
  | [], ctr => some ([], ctr)
  | e :: rest, ctr =>
    match mapLookup m e.source_node_id, mapLookup m e.target_node_id with
    | some src, some tgt =>
      let e2 : RoadmapEdge :=
        { id := ctr, roadmap_id := new_rid, handle := e.handle,
          source_node_id := src, target_node_id := tgt,
          edge_type := e.edge_type, source_handle := none, target_handle := none,
          meta_data := e.meta_data }
      match cloneEdges new_rid m rest (ctr + 1) with
      | some (es, c) => some (e2 :: es, c)
      | none => none
    | _, _ => none

/-- Sets `is_latest := false` on the roadmap with the given id. -/
def demoteRoadmap (w : World) (rid : Nat) : World :=
  { w with
    roadmaps := w.roadmaps.map (fun r => if r.id = rid then { r with is_latest := false } else r) }

/-- Outcome of a clone call: the returned value or error, the session state
at the end (rolled back to the last commit on an exception), and the list
of database states at each `commit()` in order. -/
structure CloneOutcome where
  result : Except CloneErr Roadmap
  world : World
  commits : List World
deriving Repr

/-- Embedding of `clone_roadmap_for_new_version`.  Mirrors the source step
by step: lookup, published check, version check, theme check, demote the
source and `commit()`, create the new roadmap row, deep-copy nodes, then
edges through the id map, final `commit()`. -/
def clone_roadmap_for_new_version (w : World) (roadmap_id : Nat)
    (new_version : PyStr) : CloneOutcome :=
  match get_roadmap w roadmap_id with
  | none => ⟨.error .roadmapNotFound, w, []⟩
  | some orig =>
    if orig.is_published = false then ⟨.error .sourceNotPublished, w, []⟩
    else
      match clone_version_check new_version orig.version with
      | .invalid => ⟨.error .invalidVersion, w, []⟩
      | .notNewer => ⟨.error .versionNotNewer, w, []⟩
      | .ok =>
        if (w.themes.contains orig.theme_id) = false then ⟨.error .themeNotFound, w, []⟩
        else
          let w1 := demoteRoadmap w roadmap_id
          let newRm : Roadmap :=
            { id := w1.nextId, theme_id := orig.theme_id, version := new_version,
              title := orig.title, description := orig.description,
              is_published := false, is_latest := true, published_at := none }
          let w2 := { w1 with
            roadmaps := w1.roadmaps ++ [newRm]
            nextId := w1.nextId + 1 }
          let srcNodes := roadmapNodes w2 orig.id
          let (newNodes, idMap, ctr) := cloneNodes newRm.id srcNodes w2.nextId
          let w3 := { w2 with nodes := w2.nodes ++ newNodes, nextId := ctr }
          let srcEdges := roadmapEdges w3 orig.id
          match cloneEdges newRm.id idMap srcEdges ctr with
          | none => ⟨.error .keyError, w1, [w1]⟩
          | some (newEdges, ctr2) =>
            let w4 := { w3 with edges := w3.edges ++ newEdges, nextId := ctr2 }
            ⟨.ok newRm, w4, [w1, w4]⟩

/-! ## C4 infrastructure: strict-semver strings through the PEP 440 parser -/

/-- Claim-side strict semver reading: three dot-separated nonempty digit
runs, with their numeric values. -/
def specSemverTriple (s : PyStr) : Option (Nat × Nat × Nat) :=
  match pySplit '.' s with
  | [a, b, c] =>
    if (decide (a ≠ []) && a.all Char.isDigit) &&
        ((decide (b ≠ []) && b.all Char.isDigit) &&
          (decide (c ≠ []) && c.all Char.isDigit))
    then some (digitsVal a, digitsVal b, digitsVal c) else none
  | _ => none

/-- The node attributes the clone must preserve (everything except the row
id and owning roadmap). -/
def nodeFields (n : RoadmapNode) :
    PyStr × PyStr × PyStr × Option PyStr × Int × Int × PyStr × Bool :=
  (n.handle, n.node_type, n.title, n.description, n.position_x, n.position_y,
    n.meta_data, n.is_required)

/-- A published single-theme world with one roadmap, two nodes and one
edge, used as concrete input for the clone theorems. -/
def exCloneWorld : World :=
  { themes := [1]
    roadmaps := [⟨10, 1, "1.0.0".data, "RM".data, none, true, true, some 5⟩]
    nodes := [⟨100, 10, "h1".data, "concept".data, "N1".data, none, 0, 0, "m1".data, true⟩,
              ⟨101, 10, "h2".data, "skill".data, "N2".data, some "d".data, 1, 2,
                "m2".data, false⟩]
    edges := [⟨200, 10, "e1".data, 100, 101, "default".data, none, none, "me".data⟩]
    nextId := 300 }

/-- The source roadmap row of `exCloneWorld`. -/
def exOrig : Roadmap := ⟨10, 1, "1.0.0".data, "RM".data, none, true, true, some 5⟩

/-- World with a single unpublished one-node roadmap, for the publish
witness. -/
def exPubWorld : World :=
  { themes := [1]
    roadmaps := [⟨10, 1, "1.0.0".data, "RM".data, none, false, true, none⟩]
    nodes := [⟨100, 10, "h1".data, "concept".data, "N1".data, none, 0, 0, "m1".data, true⟩]
    edges := []
    nextId := 300 }

/-! ## Document revision service (src/backend/src/services/document.py) -/

structure Document where
  id : Nat
  title : PyStr
  description : Option PyStr
  created_at : Nat
  updated_at : Nat
deriving DecidableEq, Repr

structure DocumentRevision where
  id : Nat
  document_id : Nat
  version : PyStr
  storage_key : PyStr
  change_summary : Option PyStr
  created_by : Option Nat
  created_at : Nat
deriving DecidableEq, Repr

/-- The blob store: storage key → stored content snapshot. -/
abbrev ContentStore := List (PyStr × DocContent)

def storeLookup (st : ContentStore) (key : PyStr) : Option DocContent :=
  (st.find? (fun p => decide (p.1 = key))).map Prod.snd

/-- `save_content` overwrites an existing key and otherwise appends. -/
def storeSave (st : ContentStore) (key : PyStr) (content : DocContent) :
    ContentStore :=
  if st.any (fun p => decide (p.1 = key)) then
    st.map (fun p => if p.1 = key then (key, content) else p)
  else st ++ [(key, content)]

/-- Relational + blob state visible to `DocumentService`. -/
structure DocState where
  documents : List Document
  revisions : List DocumentRevision
  store : ContentStore
  nextId : Nat
deriving DecidableEq, Repr

def natRepr (n : Nat) : PyStr := (Nat.repr n).data

/-- Embedding of `get_storage_key`:
`documents/{document_id}/{version}.json`. -/
def get_storage_key (document_id : Nat) (version : PyStr) : PyStr :=
  "documents/".data ++ natRepr document_id ++ '/' :: (version ++ ".json".data)

def get_document (s : DocState) (document_id : Nat) : Option Document :=
  s.documents.find? (fun d => decide (d.id = document_id))

/-- Latest revision per `ORDER BY created_at DESC LIMIT 1`; on a
`created_at` tie (order left unspecified by SQL) the model keeps the
earlier row. -/
def maxByCreatedAt (l : List DocumentRevision) : Option DocumentRevision :=
  l.foldl (fun acc r =>
    match acc with
    | none => some r
    | some m => if m.created_at < r.created_at then some r else some m) none

def get_latest_revision (s : DocState) (document_id : Nat) :
    Option DocumentRevision :=
  maxByCreatedAt (s.revisions.filter (fun r => decide (r.document_id = document_id)))

/-- The bump-kind resolution step of `update_document`: content-based
classification runs exactly when `version_type` is the string `"auto"`. -/
def resolve_version_type (latest_content content : DocContent)
    (version_type : PyStr) : PyStr :=
  if version_type = "auto".data then determine_version_type latest_content content
  else version_type

inductive UpdateErr where
  | documentNotFound
  | noRevisionsFound
  | contentNotFound
  | valueError
  | duplicateVersion
deriving DecidableEq, Repr

/-- Embedding of `DocumentService.update_document`.  `contentNotFound`
models the `FileNotFoundError` from loading the latest revision's blob,
`valueError` the `ValueError` from `increment_version`, and
`duplicateVersion` the unique-constraint violation on
`(document_id, version)` raised at `flush()` (which happens before the
new blob is saved). -/
def update_document (s : DocState) (document_id : Nat) (content : DocContent)
    (version_type : PyStr) (change_summary : Option PyStr)
    (created_by : Option Nat) (now : Nat) :
    Except UpdateErr (DocState × Document × DocumentRevision) :=
  match get_document s document_id with
  | none => .error .documentNotFound
  | some document =>
    match get_latest_revision s document_id with
    | none => .error .noRevisionsFound
    | some latest_revision =>
      match storeLookup s.store latest_revision.storage_key with
      | none => .error .contentNotFound
      | some latest_content =>
        let vt := resolve_version_type latest_content content version_type
        match increment_version latest_revision.version vt with
        | none => .error .valueError
        | some new_version =>
          let storage_key := get_storage_key document_id new_version
          let new_revision : DocumentRevision :=
            ⟨s.nextId, document_id, new_version, storage_key,
              change_summary, created_by, now⟩
          if s.revisions.any (fun r =>
              decide (r.document_id = document_id) && decide (r.version = new_version))
          then .error .duplicateVersion
          else
            let document2 : Document :=
              { document with
                updated_at := now
                title := match content.title with
                  | some t => t
                  | none => document.title }
            let s2 : DocState :=
              { documents := s.documents.map
                  (fun d => if d.id = document_id then document2 else d)
                revisions := s.revisions ++ [new_revision]
                store := storeSave s.store storage_key content
                nextId := s.nextId + 1 }
            .ok (s2, document2, new_revision)

/-- A call of `update_document` without an explicit `version_type`: the
Python signature defaults it to `"minor"`. -/
def update_document_default (s : DocState) (document_id : Nat)
    (content : DocContent) (change_summary : Option PyStr)
    (created_by : Option Nat) (now : Nat) :
    Except UpdateErr (DocState × Document × DocumentRevision) :=
  update_document s document_id content "minor".data change_summary created_by now

/-! ## C6 / C10: update_document specification -/

/-- Old stored content of the example document: one section whose body is
10 characters long. -/
def exOldContent : DocContent :=
  ⟨some "T".data, [⟨"intro".data, "0123456789".data⟩]⟩

/-- New content: the same single section, its body grown by 10
characters — a change well under the 50-character significance
threshold. -/
def exNewContent : DocContent :=
  ⟨some "T".data, [⟨"intro".data, "01234567890123456789".data⟩]⟩

/-- A state with one document, one revision `1.0.0` and its stored
blob. -/
def exDocState : DocState :=
  ⟨[⟨1, "T".data, none, 0, 0⟩],
   [⟨1, 1, "1.0.0".data, get_storage_key 1 "1.0.0".data, none, none, 0⟩],
   [(get_storage_key 1 "1.0.0".data, exOldContent)],
   2⟩

/-- The revision an `"auto"` update of `exDocState` is expected to
create: a patch increment of `1.0.0`. -/
def exRev : DocumentRevision :=
  ⟨2, 1, "1.0.1".data, get_storage_key 1 "1.0.1".data, none, none, 7⟩

/-- The updated document row. -/
def exD2 : Document := ⟨1, "T".data, none, 0, 7⟩

/-- The state after the `"auto"` update. -/
def exS2 : DocState :=
  ⟨[exD2], exDocState.revisions ++ [exRev],
   exDocState.store ++ [(get_storage_key 1 "1.0.1".data, exNewContent)], 3⟩

/-- The revision a default (`"minor"`) update of `exDocState` is expected
to create. -/
def exRevMinor : DocumentRevision :=
  ⟨2, 1, "1.1.0".data, get_storage_key 1 "1.1.0".data, none, none, 7⟩

/-- The state after the default update. -/
def exS2Minor : DocState :=
  ⟨[exD2], exDocState.revisions ++ [exRevMinor],
   exDocState.store ++ [(get_storage_key 1 "1.1.0".data, exNewContent)], 3⟩

/-! ## C8: storage error propagation -/

/-- The exception classes of `services/exceptions.py` that derive from
`ServiceError`. -/
inductive ServiceErrorKind where
  | documentNotFound
  | revisionNotFound
  | storage
  | validation
deriving DecidableEq, Repr

/-- The exceptions a `load_content` call can surface: the builtin
`FileNotFoundError`, FastAPI's `HTTPException`, or one of the
`ServiceError` subclasses of `services/exceptions.py`. -/
inductive PyError where
  | fileNotFoundError (msg : PyStr)
  | httpException (status : Nat) (detail : PyStr)
  | serviceError (kind : ServiceErrorKind) (msg : PyStr)
deriving DecidableEq, Repr

/-- Whether an exception belongs to the `ServiceError` taxonomy of
`services/exceptions.py`. -/
def isServiceError : PyError → Bool
  | .serviceError _ _ => true
  | _ => false

/-- Embedding of `LocalStorageService.load_content`: the filesystem is the
map from storage keys to stored JSON snapshots; a missing path raises the
builtin `FileNotFoundError(f"Document content not found: \x7bstorage_key\x7d")`. -/
def local_load_content (fs : ContentStore) (storage_key : PyStr) :
    Except PyError DocContent :=
  match storeLookup fs storage_key with
  | none => .error (.fileNotFoundError
      ("Document content not found: ".data ++ storage_key))
  | some c => .ok c

/-- Embedding of `MinioStorageService.load_content` over the outcome of the
underlying `get_object` call (an `S3Error` is carried as its code string):
`NoSuchKey` is translated to the builtin `FileNotFoundError`, any other
`S3Error` to `HTTPException(500)`. -/
def minio_load_content (getObject : Except PyStr DocContent)
    (storage_key : PyStr) : Except PyError DocContent :=
  match getObject with
  | .ok c => .ok c
  | .error code =>
    if code = "NoSuchKey".data then
      .error (.fileNotFoundError
        ("Document content not found: ".data ++ storage_key))
    else
      .error (.httpException 500 ("Error loading document: ".data ++ code))

/-- Embedding of `DocumentService.load_content` (local backend): the call
is forwarded with no `try`/`except`, so whatever the storage layer raises
escapes the document service unchanged. -/
def document_load_content (fs : ContentStore) (storage_key : PyStr) :
    Except PyError DocContent :=
  local_load_content fs storage_key

/-! ## Theorems -/

theorem intDigits_nil : intDigits [] = false := rfl

theorem intDigits_singleton (c : Char) : intDigits [c] = c.isDigit := rfl

theorem intDigits_cons_underscore (c : Char) (l : List Char) :
    intDigits (c :: '_' :: l) = (c.isDigit && intDigits l) := rfl

theorem intDigits_cons_cons (d e : Char) (l : List Char) (hne : e ≠ '_') :
    intDigits (d :: e :: l) = (d.isDigit && intDigits (e :: l)) := by
  rw [intDigits.eq_def]
  split
  · simp_all
  · simp_all
  · rename_i h; injection h with h1 h2; injection h2 with h2 h3
    exact absurd h2 hne
  · rename_i h1 h2 h3 h
    injection h with ha hb
    subst ha hb
    rfl

theorem intDigits_of_all_digits (g : PyStr) (hg : g ≠ [])
    (hd : ∀ c ∈ g, c.isDigit) : intDigits g = true := by
  induction g with
  | nil => exact absurd rfl hg
  | cons d g2 ih =>
    cases g2 with
    | nil => simpa using hd d (by simp)
    | cons e g3 =>
      have he : e.isDigit = true := hd e (by simp)
      have hne : e ≠ '_' := by
        intro h; rw [h] at he; exact absurd he (by decide)
      rw [intDigits_cons_cons d e g3 hne]
      exact Bool.and_eq_true_iff.mpr
        ⟨hd d (by simp), ih (by simp) (fun c hc => hd c (List.mem_cons_of_mem d hc))⟩

theorem intDigits_append_underscore (g t : PyStr) (hg : g ≠ [])
    (hd : ∀ c ∈ g, c.isDigit) (ht : intDigits t = true) :
    intDigits (g ++ '_' :: t) = true := by
  induction g with
  | nil => exact absurd rfl hg
  | cons d g2 ih =>
    cases g2 with
    | nil =>
      rw [List.cons_append, List.nil_append, intDigits_cons_underscore]
      exact Bool.and_eq_true_iff.mpr ⟨hd d (by simp), ht⟩
    | cons e g3 =>
      have he : e.isDigit = true := hd e (by simp)
      have hne : e ≠ '_' := by
        intro h; rw [h] at he; exact absurd he (by decide)
      have hih := ih (by simp) (fun c hc => hd c (List.mem_cons_of_mem d hc))
      rw [List.cons_append] at hih ⊢
      rw [List.cons_append, intDigits_cons_cons d e (g3 ++ '_' :: t) hne]
      exact Bool.and_eq_true_iff.mpr ⟨hd d (by simp), hih⟩

theorem intDigits_pyJoin (gs : List PyStr) (hne : gs ≠ [])
    (hg : ∀ g ∈ gs, g ≠ [] ∧ ∀ c ∈ g, c.isDigit) :
    intDigits (pyJoin '_' gs) = true := by
  induction gs with
  | nil => exact absurd rfl hne
  | cons g gs2 ih =>
    cases gs2 with
    | nil =>
      have := hg g (by simp)
      simpa [pyJoin] using intDigits_of_all_digits g this.1 this.2
    | cons g2 gs3 =>
      have hgg := hg g (by simp)
      rw [show pyJoin '_' (g :: g2 :: gs3) = g ++ '_' :: pyJoin '_' (g2 :: gs3) from rfl]
      exact intDigits_append_underscore _ _ hgg.1 hgg.2
        (ih (by simp) (fun x hx => hg x (List.mem_cons_of_mem g hx)))

theorem digitGroups_of_intDigits (s : PyStr) (h : intDigits s = true) :
    digitGroups s := by
  induction s using intDigits.induct with
  | case1 => exact absurd h (by decide)
  | case2 c =>
    rw [intDigits_singleton] at h
    exact ⟨[[c]], by simp, by simp [h], rfl⟩
  | case3 c rest ih =>
    rw [intDigits_cons_underscore] at h
    obtain ⟨hc, hrest⟩ := Bool.and_eq_true_iff.mp h
    obtain ⟨gs, hgs, hgood, hjoin⟩ := ih hrest
    refine ⟨[c] :: gs, by simp, ?_, ?_⟩
    · intro g hgmem
      rcases List.mem_cons.mp hgmem with hgh | hgt
      · subst hgh; exact ⟨by simp, by simp [hc]⟩
      · exact hgood g hgt
    · cases gs with
      | nil => exact absurd rfl hgs
      | cons g0 gs0 =>
        show c :: '_' :: rest = [c] ++ '_' :: pyJoin '_' (g0 :: gs0)
        simp [hjoin]
  | case4 c rest hne0 hneu ih =>
    cases rest with
    | nil => exact absurd rfl (fun heq => hne0 heq)
    | cons e rest2 =>
      have hnee : e ≠ '_' := fun heq => hneu rest2 (by rw [heq])
      rw [intDigits_cons_cons c e rest2 hnee] at h
      obtain ⟨hc, hrest⟩ := Bool.and_eq_true_iff.mp h
      obtain ⟨gs, hgs, hgood, hjoin⟩ := ih hrest
      cases gs with
      | nil => exact absurd rfl hgs
      | cons g0 gs0 =>
        refine ⟨(c :: g0) :: gs0, by simp, ?_, ?_⟩
        · intro g hgmem
          rcases List.mem_cons.mp hgmem with hgh | hgt
          · subst hgh
            constructor
            · simp
            · intro x hx
              rcases List.mem_cons.mp hx with hxh | hxt
              · subst hxh; exact hc
              · exact (hgood g0 (by simp)).2 x hxt
          · exact hgood g (List.mem_cons_of_mem g0 hgt)
        · cases gs0 with
          | nil =>
            show c :: e :: rest2 = c :: g0
            have : e :: rest2 = g0 := by simpa [pyJoin] using hjoin
            rw [this]
          | cons g1 gs1 =>
            show c :: e :: rest2 = (c :: g0) ++ '_' :: pyJoin '_' (g1 :: gs1)
            have : e :: rest2 = g0 ++ '_' :: pyJoin '_' (g1 :: gs1) := by
              simpa [pyJoin] using hjoin
            simp [this]

theorem intDigits_iff_digitGroups (s : PyStr) :
    intDigits s = true ↔ digitGroups s := by
  constructor
  · exact digitGroups_of_intDigits s
  · rintro ⟨gs, hne, hgood, rfl⟩
    exact intDigits_pyJoin gs hne hgood

theorem pyIntParse_isSome_iff (p : PyStr) :
    (pyIntParse p).isSome = true ↔ intLiteralShape p := by
  unfold pyIntParse intLiteralShape
  rcases hs : stripWs p with _ | ⟨c, r⟩
  · simp
  · by_cases hplus : c = '+'
    · subst hplus
      by_cases hd : intDigits r <;>
        simp [hd, ← intDigits_iff_digitGroups]
    · by_cases hminus : c = '-'
      · subst hminus
        by_cases hd : intDigits r <;>
          simp [hd, hplus, ← intDigits_iff_digitGroups]
      · by_cases hd : intDigits (c :: r) <;>
          simp [hd, hplus, hminus, ← intDigits_iff_digitGroups]

/-- C5 counterexample: the claim says `isValid` is true only on strings of
exactly three dot-separated plain non-negative integers (no leading `+`),
but the source accepts `"+1.2.3"` because Python `int("+1")` succeeds. -/
theorem is_valid_version_claim_counterexample :
    is_valid_version "+1.2.3".data = true ∧ specSemverShape "+1.2.3".data = false := by
  decide

/-- C5 (amended): `isValid(text)` is true iff `text` splits on `"."` into
exactly three parts each of which CPython `int()` accepts — optional
surrounding ASCII whitespace, an optional `+`/`-` sign, then a nonempty
digit run optionally grouped by single underscores; equivalently `parse`
raises on every other string.  The listed concrete cases hold: `"1.2"`,
`"1.2.3.4"` and `"a.b.c"` are invalid and `"1.2.3"` is valid. -/
theorem is_valid_version_characterization :
    (∀ t : PyStr, is_valid_version t = true ↔
      ((pySplit '.' t).length = 3 ∧ ∀ p ∈ pySplit '.' t, intLiteralShape p)) ∧
    is_valid_version "1.2".data = false ∧
    is_valid_version "1.2.3.4".data = false ∧
    is_valid_version "a.b.c".data = false ∧
    is_valid_version "1.2.3".data = true := by
  refine ⟨?_, by decide, by decide, by decide, by decide⟩
  intro t
  unfold is_valid_version parse_version
  rcases hs : pySplit '.' t with _ | ⟨a, _ | ⟨b, _ | ⟨c, _ | ⟨d, rest⟩⟩⟩⟩ <;>
    simp only [List.length, Option.isSome]
  · simp
  · simp
  · simp
  · constructor
    · intro h
      rcases hpa : pyIntParse a with _ | va <;> rcases hpb : pyIntParse b with _ | vb <;>
        rcases hpc : pyIntParse c with _ | vc <;> simp [hpa, hpb, hpc] at h <;>
        try exact h.elim
      refine ⟨by simp, ?_⟩
      intro p hp
      rcases List.mem_cons.mp hp with h1 | hp2
      · subst h1; exact (pyIntParse_isSome_iff p).mp (by simp [hpa])
      rcases List.mem_cons.mp hp2 with h2 | hp3
      · subst h2; exact (pyIntParse_isSome_iff p).mp (by simp [hpb])
      rcases List.mem_cons.mp hp3 with h3 | hp4
      · subst h3; exact (pyIntParse_isSome_iff p).mp (by simp [hpc])
      · exact absurd hp4 (List.not_mem_nil p)
    · rintro ⟨-, hall⟩
      have ha := (pyIntParse_isSome_iff a).mpr (hall a (by simp))
      have hb := (pyIntParse_isSome_iff b).mpr (hall b (by simp))
      have hc := (pyIntParse_isSome_iff c).mpr (hall c (by simp))
      rcases hpa : pyIntParse a with _ | va
      · rw [hpa] at ha; exact absurd ha (by simp)
      rcases hpb : pyIntParse b with _ | vb
      · rw [hpb] at hb; exact absurd hb (by simp)
      rcases hpc : pyIntParse c with _ | vc
      · rw [hpc] at hc; exact absurd hc (by simp)
      simp [hpa, hpb, hpc]
  · simp

theorem sectionScan_eq (newMap l : SectionMap) (flag : Bool) :
    sectionScan newMap l flag =
      if ∃ p ∈ l, p.2 ≠ (dictGet newMap p.1).getD [] ∧
          50 < ((p.2.length : Int) - (((dictGet newMap p.1).getD []).length : Int)).natAbs
      then "minor".data else "patch".data := by
  induction l generalizing flag with
  | nil => simp [sectionScan]
  | cons p rest ih =>
    obtain ⟨t, oc⟩ := p
    by_cases hne : oc = (dictGet newMap t).getD []
    · rw [show sectionScan newMap ((t, oc) :: rest) flag =
        sectionScan newMap rest flag from by simp [sectionScan, hne]]
      rw [ih flag]
      congr 1
      simp only [List.mem_cons, eq_iff_iff]
      constructor
      · intro h; exact ⟨_, Or.inr h.choose_spec.1, h.choose_spec.2⟩
      · rintro ⟨q, hq | hq, hcond⟩
        · subst hq; exact absurd hne (by simpa using hcond.1)
        · exact ⟨q, hq, hcond⟩
    · by_cases hbig :
        50 < ((oc.length : Int) - (((dictGet newMap t).getD []).length : Int)).natAbs
      · rw [show sectionScan newMap ((t, oc) :: rest) flag = "minor".data from by
          simp [sectionScan, hne, hbig]]
        rw [if_pos ⟨(t, oc), by simp, by simpa using hne, by simpa using hbig⟩]
      · rw [show sectionScan newMap ((t, oc) :: rest) flag =
          sectionScan newMap rest true from by simp [sectionScan, hne, hbig]]
        rw [ih true]
        congr 1
        simp only [List.mem_cons, eq_iff_iff]
        constructor
        · intro h; exact ⟨_, Or.inr h.choose_spec.1, h.choose_spec.2⟩
        · rintro ⟨q, hq | hq, hcond⟩
          · subst hq; exact absurd hcond.2 (by simpa using hbig)
          · exact ⟨q, hq, hcond⟩

theorem dictInsert_keys_map (m : SectionMap) (k v : PyStr) :
    (dictInsert m k v).map Prod.fst =
      if m.any (fun p => decide (p.1 = k)) then m.map Prod.fst
      else m.map Prod.fst ++ [k] := by
  unfold dictInsert
  by_cases h : m.any (fun p => decide (p.1 = k))
  · rw [if_pos h, if_pos h, List.map_map]
    apply List.map_congr_left
    intro p hp
    by_cases hk : p.1 = k <;> simp [hk]
  · simp [h]

theorem dictInsert_keys_nodup (m : SectionMap) (k v : PyStr)
    (hm : (m.map Prod.fst).Nodup) : ((dictInsert m k v).map Prod.fst).Nodup := by
  rw [dictInsert_keys_map]
  by_cases h : m.any (fun p => decide (p.1 = k))
  · rwa [if_pos h]
  · rw [if_neg h]
    have hk : k ∉ m.map Prod.fst := by
      intro hmem
      obtain ⟨p, hp, hpk⟩ := List.mem_map.mp hmem
      exact h (List.any_eq_true.mpr ⟨p, hp, by simp [hpk]⟩)
    simp [List.nodup_append, hm, hk]

theorem sectionMapOf_keys_nodup (ss : List DocSection) :
    ((sectionMapOf ss).map Prod.fst).Nodup := by
  unfold sectionMapOf
  suffices h : ∀ init : SectionMap, (init.map Prod.fst).Nodup →
      ((ss.foldl (fun m s => dictInsert m s.title s.content) init).map Prod.fst).Nodup by
    exact h [] (by simp)
  induction ss with
  | nil => intro init hinit; simpa using hinit
  | cons s rest ih =>
    intro init hinit
    exact ih (dictInsert init s.title s.content) (dictInsert_keys_nodup _ _ _ hinit)

theorem dictGet_of_mem_nodup {m : SectionMap} (hm : (m.map Prod.fst).Nodup)
    {p : PyStr × PyStr} (hp : p ∈ m) : dictGet m p.1 = some p.2 := by
  induction m with
  | nil => exact absurd hp (List.not_mem_nil p)
  | cons q rest ih =>
    rcases List.mem_cons.mp hp with hq | hrest
    · subst hq
      simp [dictGet, List.find?]
    · have hq1 : q.1 ≠ p.1 := by
        intro heq
        have : q.1 ∈ rest.map Prod.fst := heq ▸ List.mem_map.mpr ⟨p, hrest, rfl⟩
        exact (List.nodup_cons.mp (by simpa using hm)).1 this
      have hrec := ih (List.nodup_cons.mp (by simpa using hm)).2 hrest
      simpa [dictGet, List.find?, hq1] using hrec

theorem dictGet_isSome_iff_mem_keys (m : SectionMap) (k : PyStr) :
    (dictGet m k).isSome = true ↔ k ∈ m.map Prod.fst := by
  unfold dictGet
  rcases hf : List.find? (fun p => decide (p.1 = k)) m with _ | p
  · rw [hf]
    constructor
    · intro h; exact absurd h (by simp)
    · intro hk
      obtain ⟨q, hq, hqk⟩ := List.mem_map.mp hk
      have := List.find?_eq_none.mp hf q hq
      simp [hqk] at this
  · rw [hf]
    have hpk := List.find?_some hf
    have hmem := List.mem_of_find?_eq_some hf
    simp only [Option.map_some', Option.isSome_some, true_iff]
    exact List.mem_map.mpr ⟨p, hmem, by simpa using hpk⟩

theorem keysSetEq_mem {l1 l2 : List PyStr} (h : keysSetEq l1 l2 = true)
    {k : PyStr} (hk : k ∈ l1) : k ∈ l2 := by
  unfold keysSetEq at h
  obtain ⟨h1, -⟩ := Bool.and_eq_true_iff.mp h
  have := List.all_eq_true.mp h1 k hk
  simpa using this

/-- C1: `determine_version_type` returns `"minor"` exactly when the titles,
section counts or section-title sets differ or some shared section changed
with absolute length difference above 50; in every other case — including
content with no differences at all — it returns `"patch"`.  Short-circuit
order inside the scan is unobservable in the result. -/
theorem determine_version_type_spec :
    (∀ old new : DocContent,
      (determine_version_type old new = "minor".data ↔ minorCond old new)) ∧
    (∀ old new : DocContent,
      (determine_version_type old new = "patch".data ↔ ¬ minorCond old new)) ∧
    (∀ c : DocContent, determine_version_type c c = "patch".data) := by
  classical
  have hne : ("minor".data : PyStr) ≠ "patch".data := by decide
  have key : ∀ old new : DocContent,
      determine_version_type old new =
        if minorCond old new then "minor".data else "patch".data := by
    intro old new
    unfold determine_version_type minorCond
    by_cases h1 : old.title ≠ new.title
    · simp [h1]
    · by_cases h2 : old.sections.length ≠ new.sections.length
      · simp [h1, h2]
      · by_cases h3 : keysSetEq ((sectionMapOf old.sections).map Prod.fst)
            ((sectionMapOf new.sections).map Prod.fst) = true
        · rw [if_neg h1, if_neg h2, if_neg (by simpa using h3)]
          rw [sectionScan_eq]
          by_cases h4 : bigSharedChange (sectionMapOf old.sections)
              (sectionMapOf new.sections)
          · rw [if_pos (Or.inr (Or.inr (Or.inr h4)))]
            obtain ⟨p, hp, nc, hnc, hneq, hbig⟩ := h4
            exact if_pos ⟨p, hp, by simp [hnc, hneq], by simpa [hnc] using hbig⟩
          · rw [if_neg (show ¬ (old.title ≠ new.title ∨
                old.sections.length ≠ new.sections.length ∨
                ¬ (keysSetEq ((sectionMapOf old.sections).map Prod.fst)
                    ((sectionMapOf new.sections).map Prod.fst) = true) ∨
                bigSharedChange (sectionMapOf old.sections)
                  (sectionMapOf new.sections)) from by
              rintro (h | h | h | h)
              exacts [h1 h, h2 h, h h3, h4 h])]
            apply if_neg
            rintro ⟨p, hp, hneq, hbig⟩
            apply h4
            have hmem : p.1 ∈ (sectionMapOf new.sections).map Prod.fst :=
              keysSetEq_mem h3 (List.mem_map.mpr ⟨p, hp, rfl⟩)
            obtain ⟨nc, hnc⟩ := Option.isSome_iff_exists.mp
              ((dictGet_isSome_iff_mem_keys _ _).mpr hmem)
            exact ⟨p, hp, nc, hnc, by simpa [hnc] using hneq, by simpa [hnc] using hbig⟩
        · simp [h1, h2, h3]
  refine ⟨?_, ?_, ?_⟩
  · intro old new
    rw [key old new]
    by_cases h : minorCond old new <;> simp [h, hne]
  · intro old new
    rw [key old new]
    by_cases h : minorCond old new <;> simp [h, hne, hne.symm]
  · intro c
    rw [key c c]
    apply if_neg
    rintro (h | h | h | h)
    · exact h rfl
    · exact h rfl
    · apply h
      unfold keysSetEq
      simp [List.all_eq_true]
    · obtain ⟨p, hp, nc, hnc, hneq, -⟩ := h
      apply hneq
      have := dictGet_of_mem_nodup (sectionMapOf_keys_nodup c.sections) hp
      rw [this] at hnc
      exact Option.some_inj.mp hnc

/-- C9 counterexample: `create_revision_diff` takes no version labels and
always returns empty `from_version`/`to_version` (the source comments
"set by the caller"), so a diff for caller-supplied labels
`"1.0.0"`/`"1.1.0"` does not carry them. -/
theorem create_revision_diff_claim_counterexample :
    (create_revision_diff ⟨some "T".data, [⟨"S1".data, "x".data⟩]⟩
        ⟨some "T".data, [⟨"S1".data, "y".data⟩]⟩).from_version ≠ "1.0.0".data ∧
    (create_revision_diff ⟨some "T".data, [⟨"S1".data, "x".data⟩]⟩
        ⟨some "T".data, [⟨"S1".data, "y".data⟩]⟩).to_version ≠ "1.1.0".data := by
  decide

/-- C9 (amended): `create_revision_diff` takes only the two content
snapshots; it returns a `DocumentRevisionDiff` whose version labels are
both the empty string (left for the caller to fill in) and whose groups
are exactly the `compute_section_diff` groups: `added` holds the new-map
entries absent from the old map, `removed` the old-map entries absent from
the new map, and `modified` the shared titles with differing contents. -/
theorem create_revision_diff_spec (old new : DocContent) :
    (create_revision_diff old new).from_version = [] ∧
    (create_revision_diff old new).to_version = [] ∧
    (create_revision_diff old new).sections_added =
      (compute_section_diff old.sections new.sections).added ∧
    (create_revision_diff old new).sections_removed =
      (compute_section_diff old.sections new.sections).removed ∧
    (create_revision_diff old new).sections_modified =
      (compute_section_diff old.sections new.sections).modified ∧
    (∀ s : DocSection, s ∈ (create_revision_diff old new).sections_added ↔
      ((s.title, s.content) ∈ sectionMapOf new.sections ∧
        s.title ∉ (sectionMapOf old.sections).map Prod.fst)) ∧
    (∀ s : DocSection, s ∈ (create_revision_diff old new).sections_removed ↔
      ((s.title, s.content) ∈ sectionMapOf old.sections ∧
        s.title ∉ (sectionMapOf new.sections).map Prod.fst)) ∧
    (∀ m : ModifiedSection, m ∈ (create_revision_diff old new).sections_modified ↔
      ((m.title, m.old_content) ∈ sectionMapOf old.sections ∧
        dictGet (sectionMapOf new.sections) m.title = some m.new_content ∧
        m.old_content ≠ m.new_content)) := by
  refine ⟨rfl, rfl, rfl, rfl, rfl, ?_, ?_, ?_⟩
  · intro s
    show s ∈ (compute_section_diff old.sections new.sections).added ↔ _
    unfold compute_section_diff
    rw [List.mem_filterMap]
    constructor
    · rintro ⟨p, hp, hf⟩
      by_cases hnone : (dictGet (sectionMapOf old.sections) p.1).isNone
      · rw [if_pos hnone] at hf
        obtain rfl := Option.some_inj.mp hf
        refine ⟨hp, ?_⟩
        intro hmem
        have := (dictGet_isSome_iff_mem_keys _ _).mpr hmem
        simp only [Option.isNone_iff_eq_none] at hnone
        rw [hnone] at this
        exact absurd this (by simp)
      · rw [if_neg hnone] at hf
        exact absurd hf (by simp)
    · rintro ⟨hmem, hnot⟩
      refine ⟨(s.title, s.content), hmem, ?_⟩
      have : ¬ (dictGet (sectionMapOf old.sections) s.title).isSome = true := by
        intro hs
        exact hnot ((dictGet_isSome_iff_mem_keys _ _).mp hs)
      have hn : dictGet (sectionMapOf old.sections) s.title = none := by
        rcases hg : dictGet (sectionMapOf old.sections) s.title with _ | v
        · rfl
        · rw [hg] at this; exact absurd (by simp) this
      rw [if_pos (by simp [hn])]
  · intro s
    show s ∈ (compute_section_diff old.sections new.sections).removed ↔ _
    unfold compute_section_diff
    rw [List.mem_filterMap]
    constructor
    · rintro ⟨p, hp, hf⟩
      by_cases hnone : (dictGet (sectionMapOf new.sections) p.1).isNone
      · rw [if_pos hnone] at hf
        obtain rfl := Option.some_inj.mp hf
        refine ⟨hp, ?_⟩
        intro hmem
        have := (dictGet_isSome_iff_mem_keys _ _).mpr hmem
        simp only [Option.isNone_iff_eq_none] at hnone
        rw [hnone] at this
        exact absurd this (by simp)
      · rw [if_neg hnone] at hf
        exact absurd hf (by simp)
    · rintro ⟨hmem, hnot⟩
      refine ⟨(s.title, s.content), hmem, ?_⟩
      have : ¬ (dictGet (sectionMapOf new.sections) s.title).isSome = true := by
        intro hs
        exact hnot ((dictGet_isSome_iff_mem_keys _ _).mp hs)
      have hn : dictGet (sectionMapOf new.sections) s.title = none := by
        rcases hg : dictGet (sectionMapOf new.sections) s.title with _ | v
        · rfl
        · rw [hg] at this; exact absurd (by simp) this
      rw [if_pos (by simp [hn])]
  · intro m
    show m ∈ (compute_section_diff old.sections new.sections).modified ↔ _
    unfold compute_section_diff
    rw [List.mem_filterMap]
    constructor
    · rintro ⟨p, hp, hf⟩
      rcases hget : dictGet (sectionMapOf new.sections) p.1 with _ | nc
      · rw [hget] at hf; exact absurd hf (by simp)
      · rw [hget] at hf
        have hf2 : (if p.2 ≠ nc then
            some (⟨p.1, p.2, nc⟩ : ModifiedSection) else none) = some m := hf
        by_cases hneq : p.2 ≠ nc
        · rw [if_pos hneq] at hf2
          obtain rfl := Option.some_inj.mp hf2
          exact ⟨hp, hget, hneq⟩
        · rw [if_neg hneq] at hf2
          exact absurd hf2 (by simp)
    · rintro ⟨hmem, hget, hneq⟩
      refine ⟨(m.title, m.old_content), hmem, ?_⟩
      rw [hget]
      show (if m.old_content ≠ m.new_content then
        some (⟨m.title, m.old_content, m.new_content⟩ : ModifiedSection) else none) = some m
      rw [if_pos hneq]

theorem length_dropWhile_le {α : Type} (p : α → Bool) (l : List α) :
    (l.dropWhile p).length ≤ l.length := by
  induction l with
  | nil => simp
  | cons a as ih =>
    by_cases h : p a
    · rw [List.dropWhile_cons_of_pos h]
      exact Nat.le_succ_of_le ih
    · rw [List.dropWhile_cons_of_neg h]

theorem pySplit_ne_nil (sep : Char) (s : PyStr) : pySplit sep s ≠ [] := by
  cases s with
  | nil => simp [pySplit]
  | cons c rest =>
    unfold pySplit
    by_cases h : c = sep
    · simp [h]
    · rcases hr : pySplit sep rest with _ | ⟨h0, t0⟩ <;> simp [h, hr]

theorem pyJoin_pySplit (sep : Char) (s : PyStr) : pyJoin sep (pySplit sep s) = s := by
  induction s with
  | nil => simp [pySplit, pyJoin]
  | cons c rest ih =>
    unfold pySplit
    by_cases h : c = sep
    · subst h
      rcases hr : pySplit c rest with _ | ⟨h0, t0⟩
      · exact absurd hr (pySplit_ne_nil c rest)
      · simp only [if_pos rfl]
        rw [hr] at ih
        show pyJoin c ([] :: h0 :: t0) = c :: rest
        show [] ++ c :: pyJoin c (h0 :: t0) = c :: rest
        simp [ih]
    · rcases hr : pySplit sep rest with _ | ⟨h0, t0⟩
      · exact absurd hr (pySplit_ne_nil sep rest)
      · simp only [if_neg h]
        rw [hr] at ih
        cases t0 with
        | nil =>
          show (c :: h0) = c :: rest
          simpa [pyJoin] using ih
        | cons t1 ts =>
          show (c :: h0) ++ sep :: pyJoin sep (t1 :: ts) = c :: rest
          simpa [pyJoin] using ih

theorem mem_pySplit_not_sep (sep : Char) (s : PyStr) :
    ∀ p ∈ pySplit sep s, sep ∉ p := by
  induction s with
  | nil => intro p hp; simp [pySplit] at hp; simp [hp]
  | cons c rest ih =>
    intro p hp
    unfold pySplit at hp
    by_cases h : c = sep
    · rw [if_pos h] at hp
      rcases List.mem_cons.mp hp with h1 | h2
      · simp [h1]
      · exact ih p h2
    · rw [if_neg h] at hp
      rcases hr : pySplit sep rest with _ | ⟨h0, t0⟩
      · exact absurd hr (pySplit_ne_nil sep rest)
      · rw [hr] at hp
        rcases List.mem_cons.mp hp with h1 | h2
        · subst h1
          intro hmem
          rcases List.mem_cons.mp hmem with h3 | h4
          · exact h h3.symm
          · exact ih h0 (hr ▸ List.mem_cons_self h0 t0) h4
        · exact ih p (hr ▸ List.mem_cons_of_mem h0 h2)

theorem dropWhile_eq_self_of_all {α : Type} (p : α → Bool) (l : List α)
    (h : ∀ c ∈ l, p c = false) : l.dropWhile p = l := by
  cases l with
  | nil => rfl
  | cons a as => exact List.dropWhile_cons_of_neg (by simp [h a (by simp)])

theorem stripWs_eq_self (s : PyStr) (h : ∀ c ∈ s, isPySpace c = false) :
    stripWs s = s := by
  unfold stripWs
  rw [dropWhile_eq_self_of_all _ _ h,
    dropWhile_eq_self_of_all _ _ (fun c hc => h c (List.mem_reverse.mp hc)),
    List.reverse_reverse]

theorem toLower_eq_self_of_isDigit (c : Char) (h : c.isDigit = true) :
    c.toLower = c := by
  simp only [Char.isDigit, Bool.and_eq_true, decide_eq_true_eq] at h
  unfold Char.toLower
  rw [if_neg]
  rintro ⟨h1, h2⟩
  obtain ⟨ha, hb⟩ := h
  have hb2 : c.toNat ≤ 57 := hb
  omega

theorem isPySpace_eq_false_of_isDigit (c : Char) (h : c.isDigit = true) :
    isPySpace c = false := by
  unfold isPySpace
  have h1 : c ≠ ' ' := fun he => by rw [he] at h; exact absurd h (by decide)
  have h2 : c ≠ '\t' := fun he => by rw [he] at h; exact absurd h (by decide)
  have h3 : c ≠ '\n' := fun he => by rw [he] at h; exact absurd h (by decide)
  have h4 : c ≠ '\r' := fun he => by rw [he] at h; exact absurd h (by decide)
  have h5 : c ≠ '\x0b' := fun he => by rw [he] at h; exact absurd h (by decide)
  have h6 : c ≠ '\x0c' := fun he => by rw [he] at h; exact absurd h (by decide)
  simp [h1, h2, h3, h4, h5, h6]

theorem takeWhile_append_of_all {α : Type} (p : α → Bool) (d rest : List α)
    (hd : ∀ c ∈ d, p c = true)
    (hrest : ∀ c, rest.head? = some c → p c = false) :
    (d ++ rest).takeWhile p = d ∧ (d ++ rest).dropWhile p = rest := by
  induction d with
  | nil =>
    simp only [List.nil_append]
    cases rest with
    | nil => simp
    | cons r rs =>
      have := hrest r rfl
      rw [List.takeWhile_cons_of_neg (by simp [this]),
        List.dropWhile_cons_of_neg (by simp [this])]
      exact ⟨rfl, rfl⟩
  | cons a as ih =>
    have ha := hd a (by simp)
    obtain ⟨iht, ihd⟩ := ih (fun c hc => hd c (List.mem_cons_of_mem a hc))
    rw [List.cons_append, List.takeWhile_cons_of_pos (by simp [ha]),
      List.dropWhile_cons_of_pos (by simp [ha])]
    exact ⟨by rw [iht], ihd⟩

theorem trimZeros_three (a b c : Nat) :
    trimZeros [a, b, c] =
      if c ≠ 0 then [a, b, c] else if b ≠ 0 then [a, b]
      else if a ≠ 0 then [a] else [] := by
  unfold trimZeros
  have e0 : ∀ n : Nat, n = 0 → (n == 0) = true := fun n h => by simp [h]
  have e1 : ∀ n : Nat, ¬ n = 0 → (n == 0) = false := fun n h => by simp [h]
  by_cases hc : c = 0 <;> by_cases hb : b = 0 <;> by_cases ha : a = 0 <;>
    first
      | simp [List.dropWhile, e0 _ hc, e0 _ hb, e0 _ ha, hc, hb, ha]
      | simp [List.dropWhile, e0 _ hc, e0 _ hb, e1 _ ha, hc, hb, ha]
      | simp [List.dropWhile, e0 _ hc, e1 _ hb, hc, hb]
      | simp [List.dropWhile, e1 _ hc, hc]

theorem listNatCmp_cons_of_gt {x y : Nat} (h : y < x) (xs ys : List Nat) :
    listNatCmp (x :: xs) (y :: ys) = .gt := by
  simp [listNatCmp, Nat.compare_eq_gt.mpr h]

theorem listNatCmp_cons_self (x : Nat) (xs ys : List Nat) :
    listNatCmp (x :: xs) (x :: ys) = listNatCmp xs ys := by
  simp [listNatCmp, Nat.compare_eq_eq.mpr rfl]

theorem listNatCmp_cons_nil (x : Nat) (xs : List Nat) :
    listNatCmp (x :: xs) [] = .gt := rfl

theorem trim3_head {d : Nat} (hd : d ≠ 0) (e f : Nat) :
    ∃ T, trimZeros [d, e, f] = d :: T := by
  rw [trimZeros_three]
  split_ifs
  · exact ⟨[e, f], rfl⟩
  · exact ⟨[e], rfl⟩
  · exact ⟨[], rfl⟩

theorem trim3_head2 {e : Nat} (he : e ≠ 0) (d f : Nat) :
    ∃ T, trimZeros [d, e, f] = d :: e :: T := by
  rw [trimZeros_three]
  split_ifs
  · exact ⟨[f], rfl⟩
  · exact ⟨[], rfl⟩

theorem trim3_full {f : Nat} (hf : f ≠ 0) (d e : Nat) :
    trimZeros [d, e, f] = [d, e, f] := by
  rw [trimZeros_three, if_pos hf]

theorem listNatCmp_trim_gt (a b c d e f : Nat)
    (h : a < d ∨ a = d ∧ (b < e ∨ b = e ∧ c < f)) :
    listNatCmp (trimZeros [d, e, f]) (trimZeros [a, b, c]) = .gt := by
  rcases h with h | ⟨rfl, h | ⟨rfl, h⟩⟩
  · obtain ⟨T, hT⟩ := trim3_head (by omega : d ≠ 0) e f
    rw [hT, trimZeros_three]
    split_ifs
    · exact listNatCmp_cons_of_gt h _ _
    · exact listNatCmp_cons_of_gt h _ _
    · exact listNatCmp_cons_of_gt h _ _
    · exact listNatCmp_cons_nil d T
  · obtain ⟨T, hT⟩ := trim3_head2 (by omega : e ≠ 0) a f
    rw [hT, trimZeros_three]
    split_ifs
    · rw [listNatCmp_cons_self]; exact listNatCmp_cons_of_gt h _ _
    · rw [listNatCmp_cons_self]; exact listNatCmp_cons_of_gt h _ _
    · rw [listNatCmp_cons_self]; exact listNatCmp_cons_nil e T
    · exact listNatCmp_cons_nil a (e :: T)
  · rw [trim3_full (by omega : f ≠ 0), trimZeros_three]
    split_ifs
    · rw [listNatCmp_cons_self, listNatCmp_cons_self]
      exact listNatCmp_cons_of_gt h _ _
    · rw [listNatCmp_cons_self, listNatCmp_cons_self]
      exact listNatCmp_cons_nil f []
    · rw [listNatCmp_cons_self]
      exact listNatCmp_cons_nil b [f]
    · exact listNatCmp_cons_nil a [b, f]

theorem parsePre_nil : parsePre [] = (none, []) := rfl

theorem parsePost_nil : parsePost [] = (none, []) := rfl

theorem parseDev_nil : parseDev [] = (none, []) := rfl

theorem parseLocal_nil : parseLocal [] = some (none, []) := rfl

theorem releaseMore_nil (acc : List Nat) : releaseMore acc [] = (acc, []) := rfl

theorem releaseMoreF_step_dot (fuel : Nat) (acc : List Nat) (p rest : PyStr)
    (hp : p ≠ []) (hd : ∀ c ∈ p, c.isDigit = true)
    (hrest : ∀ c, rest.head? = some c → c.isDigit = false) :
    releaseMoreF (fuel + 1) acc ('.' :: (p ++ rest)) =
      releaseMoreF fuel (acc ++ [digitsVal p]) rest := by
  obtain ⟨ht, hdr⟩ := takeWhile_append_of_all Char.isDigit p rest hd hrest
  show (if ((p ++ rest).takeWhile Char.isDigit).isEmpty = true
      then (acc, '.' :: (p ++ rest))
      else releaseMoreF fuel (acc ++ [digitsVal ((p ++ rest).takeWhile Char.isDigit)])
        ((p ++ rest).dropWhile Char.isDigit)) =
    releaseMoreF fuel (acc ++ [digitsVal p]) rest
  rw [ht, hdr, if_neg (by simp [List.isEmpty_iff, hp])]

theorem releaseMoreF_not_dot (fuel : Nat) (acc : List Nat) (c : Char)
    (r : PyStr) (hc : c ≠ '.') :
    releaseMoreF (fuel + 1) acc (c :: r) = (acc, c :: r) := by
  rw [releaseMoreF.eq_def]
  split
  · rfl
  · split
    · rename_i r1 heq
      injection heq with hh1 hh2
      exact absurd hh1 hc
    · rfl

theorem releaseMoreF_fuel (fuel : Nat) (acc : List Nat) (s : PyStr)
    (h : s.length ≤ fuel) :
    releaseMoreF fuel acc s = releaseMoreF s.length acc s := by
  induction fuel using Nat.strong_induction_on generalizing acc s with
  | _ fuel ih =>
    match fuel, h with
    | 0, h =>
      obtain rfl : s = [] := List.eq_nil_of_length_eq_zero (Nat.le_zero.mp h)
      rfl
    | fuel + 1, h =>
      match s, h with
      | [], _ => rfl
      | c :: r, h =>
        by_cases hc : c = '.'
        · subst hc
          by_cases hd : (r.takeWhile Char.isDigit).isEmpty
          · show (if (r.takeWhile Char.isDigit).isEmpty = true then _ else _) = _
            rw [if_pos hd]
            rw [show (('.' :: r : PyStr)).length = r.length + 1 from rfl]
            show _ = (if (r.takeWhile Char.isDigit).isEmpty = true then _ else _)
            rw [if_pos hd]
          · show (if (r.takeWhile Char.isDigit).isEmpty = true then _ else _) = _
            rw [if_neg hd]
            rw [show (('.' :: r : PyStr)).length = r.length + 1 from rfl]
            conv_rhs =>
              rw [show releaseMoreF (r.length + 1) acc ('.' :: r) =
                (if (r.takeWhile Char.isDigit).isEmpty = true
                  then (acc, '.' :: r)
                  else releaseMoreF r.length
                    (acc ++ [digitsVal (r.takeWhile Char.isDigit)])
                    (r.dropWhile Char.isDigit)) from rfl]
            rw [if_neg hd]
            have hlen : (r.dropWhile Char.isDigit).length ≤ r.length :=
              length_dropWhile_le _ _
            have hfl : (('.' :: r : PyStr)).length ≤ fuel + 1 := h
            simp only [List.length_cons] at hfl
            rw [ih fuel (by omega) _ _ (by omega),
              ih r.length (by omega) _ _ hlen]
        · rw [releaseMoreF_not_dot fuel acc c r hc]
          rw [show ((c :: r : PyStr)).length = r.length + 1 from rfl]
          rw [releaseMoreF_not_dot r.length acc c r hc]

theorem releaseMore_dot (acc : List Nat) (p rest : PyStr) (hp : p ≠ [])
    (hd : ∀ c ∈ p, c.isDigit = true)
    (hrest : ∀ c, rest.head? = some c → c.isDigit = false) :
    releaseMore acc ('.' :: (p ++ rest)) =
      releaseMore (acc ++ [digitsVal p]) rest := by
  unfold releaseMore
  rw [show (('.' :: (p ++ rest) : PyStr)).length = (p ++ rest).length + 1 from rfl]
  rw [releaseMoreF_step_dot _ _ _ _ hp hd hrest]
  exact releaseMoreF_fuel _ _ _ (by simp [List.length_append])

theorem pep440Parse_semver (p1 p2 p3 : PyStr)
    (h1 : p1 ≠ []) (hd1 : ∀ c ∈ p1, c.isDigit = true)
    (h2 : p2 ≠ []) (hd2 : ∀ c ∈ p2, c.isDigit = true)
    (h3 : p3 ≠ []) (hd3 : ∀ c ∈ p3, c.isDigit = true) :
    pep440Parse (p1 ++ '.' :: (p2 ++ '.' :: p3)) =
      some ⟨0, [digitsVal p1, digitsVal p2, digitsVal p3],
        none, none, none, none⟩ := by
  set s : PyStr := p1 ++ '.' :: (p2 ++ '.' :: p3) with hs
  have hmem : ∀ c ∈ s, c.isDigit = true ∨ c = '.' := by
    intro c hc
    rw [hs] at hc
    rcases List.mem_append.mp hc with h | h
    · exact Or.inl (hd1 c h)
    · rcases List.mem_cons.mp h with h | h
      · exact Or.inr h
      · rcases List.mem_append.mp h with h | h
        · exact Or.inl (hd2 c h)
        · rcases List.mem_cons.mp h with h | h
          · exact Or.inr h
          · exact Or.inl (hd3 c h)
  have hns : ∀ c ∈ s, isPySpace c = false := by
    intro c hc
    rcases hmem c hc with h | h
    · exact isPySpace_eq_false_of_isDigit c h
    · rw [h]; decide
  have hlo : ∀ c ∈ s, c.toLower = c := by
    intro c hc
    rcases hmem c hc with h | h
    · exact toLower_eq_self_of_isDigit c h
    · rw [h]; decide
  have hnorm : (stripWs s).map Char.toLower = s := by
    rw [stripWs_eq_self s hns]
    calc s.map Char.toLower = s.map id := List.map_congr_left hlo
    _ = s := List.map_id s
  obtain ⟨c1, p1r, hp1⟩ : ∃ c1 p1r, p1 = c1 :: p1r := by
    cases p1 with
    | nil => exact absurd rfl h1
    | cons x xs => exact ⟨x, xs, rfl⟩
  have hc1 : c1.isDigit = true := hd1 c1 (by simp [hp1])
  have hhead : s.head? = some c1 := by rw [hs, hp1]; rfl
  have hnotv : ¬ (s.head? = some 'v') := by
    rw [hhead]
    intro hv
    obtain hv2 := Option.some_inj.mp hv
    rw [hv2] at hc1
    exact absurd hc1 (by decide)
  have hspan1 := takeWhile_append_of_all Char.isDigit p1 ('.' :: (p2 ++ '.' :: p3))
    hd1 (by intro c hcc; obtain rfl := Option.some_inj.mp hcc; decide)
  unfold pep440Parse
  rw [hnorm]
  simp only [if_neg hnotv]
  rw [hspan1.1, hspan1.2]
  have hcond : (!p1.isEmpty &&
      decide ((('.' :: (p2 ++ '.' :: p3) : PyStr).head? = some '!'))) = false := by
    simp
  rw [hcond]
  simp only [Bool.false_eq_true, if_false]
  rw [hspan1.1]
  rw [if_neg (by simp [List.isEmpty_iff, h1])]
  rw [hspan1.2]
  rw [releaseMore_dot [digitsVal p1] p2 ('.' :: p3) h2 hd2
    (by intro c hcc; obtain rfl := Option.some_inj.mp hcc; decide)]
  simp only [List.singleton_append]
  rw [show ('.' :: p3 : PyStr) = '.' :: (p3 ++ []) from by simp]
  rw [releaseMore_dot [digitsVal p1, digitsVal p2] p3 [] h3 hd3 (by intro c hcc; simp at hcc)]
  rw [releaseMore_nil, parsePre_nil, parsePost_nil, parseDev_nil, parseLocal_nil]
  rfl

theorem cloneNodes_spec (rid : Nat) (ns : List RoadmapNode) (ctr : Nat) :
    (cloneNodes rid ns ctr).1.map nodeFields = ns.map nodeFields ∧
    (∀ n ∈ (cloneNodes rid ns ctr).1, n.roadmap_id = rid) ∧
    (cloneNodes rid ns ctr).2.1.map Prod.fst = ns.map RoadmapNode.id ∧
    (cloneNodes rid ns ctr).2.1.map Prod.snd =
      (cloneNodes rid ns ctr).1.map RoadmapNode.id := by
  induction ns generalizing ctr with
  | nil => simp [cloneNodes]
  | cons n rest ih =>
    obtain ⟨ih1, ih2, ih3, ih4⟩ := ih (ctr + 1)
    refine ⟨?_, ?_, ?_, ?_⟩
    · simp only [cloneNodes, List.map_cons]
      rw [ih1]
      rfl
    · intro q hq
      simp only [cloneNodes, List.mem_cons] at hq
      rcases hq with hq | hq
      · rw [hq]
      · exact ih2 q hq
    · simp only [cloneNodes, List.map_cons]
      rw [ih3]
    · simp only [cloneNodes, List.map_cons]
      rw [ih4]

theorem mapLookup_mem_snd_aux (m : List (Nat × Nat)) (acc : Option Nat)
    (k v : Nat)
    (h : m.foldl (fun a p => if p.1 = k then some p.2 else a) acc = some v) :
    v ∈ m.map Prod.snd ∨ acc = some v := by
  induction m generalizing acc with
  | nil => exact Or.inr h
  | cons p rest ih =>
    rw [List.foldl_cons] at h
    rcases ih _ h with hm | hacc
    · exact Or.inl (List.mem_cons_of_mem _ hm)
    · by_cases hk : p.1 = k
      · rw [if_pos hk] at hacc
        exact Or.inl (List.mem_cons.mpr (Or.inl (Option.some_inj.mp hacc).symm))
      · rw [if_neg hk] at hacc
        exact Or.inr hacc

theorem mapLookup_mem_snd {m : List (Nat × Nat)} {k v : Nat}
    (h : mapLookup m k = some v) : v ∈ m.map Prod.snd := by
  rcases mapLookup_mem_snd_aux m none k v h with hm | hacc
  · exact hm
  · exact absurd hacc (by simp)

theorem cloneEdges_spec (rid : Nat) (m : List (Nat × Nat))
    (es : List RoadmapEdge) (ctr : Nat) (nes : List RoadmapEdge) (c2 : Nat)
    (h : cloneEdges rid m es ctr = some (nes, c2)) :
    List.Forall₂ (fun e enew =>
      enew.roadmap_id = rid ∧ enew.handle = e.handle ∧
      enew.edge_type = e.edge_type ∧ enew.meta_data = e.meta_data ∧
      enew.source_handle = none ∧ enew.target_handle = none ∧
      mapLookup m e.source_node_id = some enew.source_node_id ∧
      mapLookup m e.target_node_id = some enew.target_node_id) es nes := by
  induction es generalizing ctr nes with
  | nil =>
    obtain rfl : nes = [] := by
      simp only [cloneEdges] at h
      exact (Prod.mk.injEq _ _ _ _ ▸ Option.some_inj.mp h).1.symm ▸ rfl
    exact List.Forall₂.nil
  | cons e rest ih =>
    simp only [cloneEdges] at h
    rcases hsrc : mapLookup m e.source_node_id with _ | src
    · rw [hsrc] at h; exact absurd h (by simp)
    rcases htgt : mapLookup m e.target_node_id with _ | tgt
    · rw [hsrc, htgt] at h; exact absurd h (by simp)
    rw [hsrc, htgt] at h
    rcases hrec : cloneEdges rid m rest (ctr + 1) with _ | ⟨nes1, nc⟩
    · rw [hrec] at h; exact absurd h (by simp)
    · rw [hrec] at h
      have h2 := Option.some_inj.mp h
      have hn : _ :: nes1 = nes := congrArg Prod.fst h2
      have hc : nc = c2 := congrArg Prod.snd h2
      rw [hc] at hrec
      rw [← hn]
      exact List.Forall₂.cons ⟨rfl, rfl, rfl, rfl, rfl, rfl, hsrc, htgt⟩
        (ih (ctr + 1) nes1 hrec)

theorem forall₂_mem_right {α β : Type} {R : α → β → Prop} {as : List α}
    {bs : List β} (h : List.Forall₂ R as bs) {b : β} (hb : b ∈ bs) :
    ∃ a ∈ as, R a b := by
  induction h with
  | nil => exact absurd hb (List.not_mem_nil b)
  | cons hr _ ih =>
    rcases List.mem_cons.mp hb with hb1 | hb2
    · exact ⟨_, by simp, hb1 ▸ hr⟩
    · obtain ⟨a, ha, har⟩ := ih hb2
      exact ⟨a, List.mem_cons_of_mem _ ha, har⟩

/-- C2: whenever `cloneForNewVersion` succeeds, the returned roadmap is an
unpublished latest-flagged copy of the source's theme/title/description at
the new version; the relational state afterwards demotes exactly the
source's `is_latest` flag and appends the new roadmap; every source node is
deep-copied onto the new roadmap preserving handle, type, title,
description, position, metadata and `is_required`; every source edge is
deep-copied with both endpoints rewritten through the old-id → new-id map,
so each new edge's endpoints lie in the new roadmap's node set; and no
pre-existing node or edge row is touched. -/
theorem clone_roadmap_success_spec (w : World) (rid : Nat) (nv : PyStr)
    (orig : Roadmap) (r : Roadmap)
    (hfind : get_roadmap w rid = some orig)
    (hok : (clone_roadmap_for_new_version w rid nv).result = .ok r) :
    r.is_published = false ∧ r.is_latest = true ∧ r.version = nv ∧
    r.theme_id = orig.theme_id ∧ r.title = orig.title ∧
    r.description = orig.description ∧
    (clone_roadmap_for_new_version w rid nv).world.roadmaps =
      w.roadmaps.map (fun q => if q.id = rid then { q with is_latest := false }
        else q) ++ [r] ∧
    (∃ newNodes : List RoadmapNode,
      (clone_roadmap_for_new_version w rid nv).world.nodes = w.nodes ++ newNodes ∧
      newNodes.map nodeFields = (roadmapNodes w orig.id).map nodeFields ∧
      (∀ n ∈ newNodes, n.roadmap_id = r.id) ∧
      ∃ idMap : List (Nat × Nat),
        idMap.map Prod.fst = (roadmapNodes w orig.id).map RoadmapNode.id ∧
        idMap.map Prod.snd = newNodes.map RoadmapNode.id ∧
        ∃ newEdges : List RoadmapEdge,
          (clone_roadmap_for_new_version w rid nv).world.edges =
            w.edges ++ newEdges ∧
          List.Forall₂ (fun e enew =>
            enew.roadmap_id = r.id ∧ enew.handle = e.handle ∧
            enew.edge_type = e.edge_type ∧ enew.meta_data = e.meta_data ∧
            enew.source_handle = none ∧ enew.target_handle = none ∧
            mapLookup idMap e.source_node_id = some enew.source_node_id ∧
            mapLookup idMap e.target_node_id = some enew.target_node_id)
            (roadmapEdges w orig.id) newEdges ∧
          ∀ e ∈ newEdges, e.source_node_id ∈ newNodes.map RoadmapNode.id ∧
            e.target_node_id ∈ newNodes.map RoadmapNode.id) := by
  unfold clone_roadmap_for_new_version at hok ⊢
  rw [hfind] at hok ⊢
  simp only [] at hok ⊢
  by_cases hpub : orig.is_published = false
  · rw [if_pos hpub] at hok
    exact absurd hok (by simp)
  rw [if_neg hpub] at hok ⊢
  cases hchk : clone_version_check nv orig.version with
  | invalid =>
    rw [hchk] at hok
    exact absurd hok (by simp)
  | notNewer =>
    rw [hchk] at hok
    exact absurd hok (by simp)
  | ok =>
    rw [hchk] at hok
    simp only [] at hok ⊢
    by_cases htheme : (w.themes.contains orig.theme_id) = false
    · rw [if_pos htheme] at hok
      exact absurd hok (by simp)
    rw [if_neg htheme] at hok ⊢
    split at hok
    · exact absurd hok (by simp)
    · rename_i newEdges ctr2 hedges
      simp only [Except.ok.injEq] at hok
      obtain ⟨fields1, fields2, fields3, fields4⟩ :=
        cloneNodes_spec (demoteRoadmap w rid).nextId (roadmapNodes w orig.id)
          ((demoteRoadmap w rid).nextId + 1)
      have hforall := cloneEdges_spec _ _ _ _ _ _ hedges
      refine ⟨by rw [← hok], by rw [← hok], by rw [← hok], by rw [← hok],
        by rw [← hok], by rw [← hok], ?_, ?_⟩
      · rw [← hok]
        rfl
      · refine ⟨_, rfl, fields1, ?_, _, fields3, fields4, newEdges, rfl, ?_, ?_⟩
        · intro n hn
          rw [← hok]
          exact fields2 n hn
        · rw [← hok]
          exact hforall
        · intro e he
          obtain ⟨e0, he0, hrel⟩ := forall₂_mem_right hforall he
          have hmem1 : e.source_node_id ∈
              ((cloneNodes (demoteRoadmap w rid).nextId (roadmapNodes w orig.id)
                ((demoteRoadmap w rid).nextId + 1)).2.1.map Prod.snd) :=
            mapLookup_mem_snd hrel.2.2.2.2.2.2.1
          have hmem2 : e.target_node_id ∈
              ((cloneNodes (demoteRoadmap w rid).nextId (roadmapNodes w orig.id)
                ((demoteRoadmap w rid).nextId + 1)).2.1.map Prod.snd) :=
            mapLookup_mem_snd hrel.2.2.2.2.2.2.2
          rw [fields4] at hmem1 hmem2
          exact ⟨hmem1, hmem2⟩

theorem clone_roadmap_success_spec_witness :
    (⟨300, 1, "1.1.0".data, "RM".data, none, false, true, none⟩ : Roadmap).is_latest
      = true :=
  (clone_roadmap_success_spec exCloneWorld 10 "1.1.0".data exOrig
    ⟨300, 1, "1.1.0".data, "RM".data, none, false, true, none⟩
    (by decide) (by rfl)).2.1

/-- C3: the clone operation issues two commits, and the first committed
state persists the demoted source (`is_latest = false`) while no roadmap
with the new version exists yet — the writes are not grouped into a single
transaction boundary, contradicting the specification's atomicity
requirement. -/
theorem clone_commit_boundary_violation :
    (clone_roadmap_for_new_version exCloneWorld 10 "1.1.0".data).result.isOk = true ∧
    (clone_roadmap_for_new_version exCloneWorld 10 "1.1.0".data).commits.length = 2 ∧
    (clone_roadmap_for_new_version exCloneWorld 10 "1.1.0".data).commits.head? =
      some (demoteRoadmap exCloneWorld 10) ∧
    (demoteRoadmap exCloneWorld 10).roadmaps.all
      (fun r => !(r.id == 10) || !r.is_latest) = true ∧
    (demoteRoadmap exCloneWorld 10).roadmaps.all
      (fun r => decide (r.version ≠ "1.1.0".data)) = true := by
  decide

/-- C4 counterexample: `"2.0"` is not three dot-separated integers, yet
the clone version check accepts it against source version `"1.0.0"` (the
source validates with `packaging.version`, PEP 440, not the project's own
semver utility), and the whole clone call succeeds. -/
theorem clone_version_claim_counterexample :
    specSemverShape "2.0".data = false ∧
    clone_version_check "2.0".data "1.0.0".data = .ok ∧
    (clone_roadmap_for_new_version exCloneWorld 10 "2.0".data).result.toOption =
      some ⟨300, 1, "2.0".data, "RM".data, none, false, true, none⟩ := by
  decide

theorem specSemverTriple_parse (s : PyStr) (a b c : Nat)
    (h : specSemverTriple s = some (a, b, c)) :
    pep440Parse s = some ⟨0, [a, b, c], none, none, none, none⟩ := by
  unfold specSemverTriple at h
  rcases hsp : pySplit '.' s with _ | ⟨p1, _ | ⟨p2, _ | ⟨p3, _ | ⟨p4, rest⟩⟩⟩⟩
  · rw [hsp] at h; exact absurd h (by simp)
  · rw [hsp] at h; exact absurd h (by simp)
  · rw [hsp] at h; exact absurd h (by simp)
  case cons.cons.cons.cons =>
    rw [hsp] at h; exact absurd h (by simp)
  rw [hsp] at h
  simp only [] at h
  by_cases hcond : ((decide (p1 ≠ []) && p1.all Char.isDigit) &&
      ((decide (p2 ≠ []) && p2.all Char.isDigit) &&
        (decide (p3 ≠ []) && p3.all Char.isDigit))) = true
  · have hjoin : s = p1 ++ '.' :: (p2 ++ '.' :: p3) := by
      have := pyJoin_pySplit '.' s
      rw [hsp] at this
      exact this.symm
    rw [if_pos hcond] at h
    obtain ⟨hv, hrest⟩ := Prod.mk.injEq _ _ _ _ ▸ Option.some_inj.mp h
    obtain ⟨hv2, hv3⟩ := Prod.mk.injEq _ _ _ _ ▸ hrest
    simp only [Bool.and_eq_true, decide_eq_true_eq, List.all_eq_true] at hcond
    rw [hjoin, pep440Parse_semver p1 p2 p3 hcond.1.1 hcond.1.2
      hcond.2.1.1 hcond.2.1.2 hcond.2.2.1 hcond.2.2.2]
    rw [hv, hv2, hv3]
  · rw [if_neg hcond] at h
    exact absurd h (by simp)

theorem pep440Cmp_semver_gt (a b c d e f : Nat)
    (h : a < d ∨ a = d ∧ (b < e ∨ b = e ∧ c < f)) :
    pep440Cmp ⟨0, [d, e, f], none, none, none, none⟩
      ⟨0, [a, b, c], none, none, none, none⟩ = .gt := by
  unfold pep440Cmp
  rw [show compare (0 : Nat) 0 = Ordering.eq from rfl]
  rw [show ∀ o : Ordering, Ordering.eq.then o = o from fun o => rfl]
  rw [listNatCmp_trim_gt a b c d e f h]
  rfl

/-- C4 counterexample support and amended behaviour of the version
validation inside `cloneForNewVersion`: the source uses
`packaging.version` (PEP 440), not the project's own 3-part semver
utility.  (i) When either the new label or the stored source version fails
PEP 440 parsing, the call fails with `InvalidVersion`.  (ii) When both
parse and the new one compares `<=` the source, it fails with
`VersionNotNewer`.  (iii) When both parse and the new one compares
strictly greater, the version check passes (any later failure is not a
version error).  (iv) In particular every strict-semver label strictly
greater than a strict-semver source version passes the check. -/
theorem clone_version_validation :
    (∀ (w : World) (rid : Nat) (nv : PyStr) (orig : Roadmap),
      get_roadmap w rid = some orig → orig.is_published = true →
      (pep440Parse nv = none ∨ pep440Parse orig.version = none) →
      (clone_roadmap_for_new_version w rid nv).result = .error .invalidVersion) ∧
    (∀ (w : World) (rid : Nat) (nv : PyStr) (orig : Roadmap)
      (nvp ovp : Pep440),
      get_roadmap w rid = some orig → orig.is_published = true →
      pep440Parse nv = some nvp → pep440Parse orig.version = some ovp →
      pep440Le nvp ovp = true →
      (clone_roadmap_for_new_version w rid nv).result = .error .versionNotNewer) ∧
    (∀ (w : World) (rid : Nat) (nv : PyStr) (orig : Roadmap)
      (nvp ovp : Pep440),
      get_roadmap w rid = some orig → orig.is_published = true →
      pep440Parse nv = some nvp → pep440Parse orig.version = some ovp →
      pep440Le nvp ovp = false →
      (clone_roadmap_for_new_version w rid nv).result ≠ .error .invalidVersion ∧
      (clone_roadmap_for_new_version w rid nv).result ≠ .error .versionNotNewer) ∧
    (∀ (sv nv : PyStr) (a b c d e f : Nat),
      specSemverTriple sv = some (a, b, c) →
      specSemverTriple nv = some (d, e, f) →
      (a < d ∨ a = d ∧ (b < e ∨ b = e ∧ c < f)) →
      clone_version_check nv sv = .ok) := by
  have hchk_inv : ∀ (nv ov : PyStr),
      (pep440Parse nv = none ∨ pep440Parse ov = none) →
      clone_version_check nv ov = .invalid := by
    intro nv ov h
    unfold clone_version_check
    rcases h with h | h
    · rw [h]
    · rw [h]
      rcases pep440Parse nv with _ | v <;> rfl
  have hchk_le : ∀ (nv ov : PyStr) (nvp ovp : Pep440),
      pep440Parse nv = some nvp → pep440Parse ov = some ovp →
      pep440Le nvp ovp = true → clone_version_check nv ov = .notNewer := by
    intro nv ov nvp ovp hn ho hle
    unfold clone_version_check
    rw [hn, ho]
    simp only [hle]
    rfl
  have hchk_gt : ∀ (nv ov : PyStr) (nvp ovp : Pep440),
      pep440Parse nv = some nvp → pep440Parse ov = some ovp →
      pep440Le nvp ovp = false → clone_version_check nv ov = .ok := by
    intro nv ov nvp ovp hn ho hle
    unfold clone_version_check
    rw [hn, ho]
    simp only [hle]
    rfl
  refine ⟨?_, ?_, ?_, ?_⟩
  · intro w rid nv orig hfind hpub hparse
    unfold clone_roadmap_for_new_version
    rw [hfind]
    simp only []
    rw [if_neg (by simp [hpub]), hchk_inv nv orig.version hparse]
  · intro w rid nv orig nvp ovp hfind hpub hn ho hle
    unfold clone_roadmap_for_new_version
    rw [hfind]
    simp only []
    rw [if_neg (by simp [hpub]), hchk_le nv orig.version nvp ovp hn ho hle]
  · intro w rid nv orig nvp ovp hfind hpub hn ho hle
    unfold clone_roadmap_for_new_version
    rw [hfind]
    simp only []
    rw [if_neg (by simp [hpub]), hchk_gt nv orig.version nvp ovp hn ho hle]
    simp only []
    constructor
    · split
      · simp
      · split <;> simp
    · split
      · simp
      · split <;> simp
  · intro sv nv a b c d e f hsv hnv horder
    exact hchk_gt nv sv _ _ (specSemverTriple_parse nv d e f hnv)
      (specSemverTriple_parse sv a b c hsv)
      (by
        unfold pep440Le
        rw [pep440Cmp_semver_gt a b c d e f horder]
        simp)

theorem clone_version_validation_witness :
    clone_version_check "1.1.0".data "1.0.0".data = .ok :=
  clone_version_validation.2.2.2 "1.0.0".data "1.1.0".data 1 0 0 1 1 0
    (by decide) (by decide) (by omega)

/-- C7: `publish` fails `RoadmapNotFound` when no roadmap has the id,
`AlreadyPublished` when it is already published, `EmptyRoadmap` at zero
nodes, `DisconnectedRoadmap` at two or more nodes and zero edges; it
succeeds on one node with zero edges, and on success sets
`is_published = true` and `published_at` to the current time. -/
theorem publish_roadmap_spec (w : World) (rid now : Nat) :
    (get_roadmap w rid = none →
      publish_roadmap w rid now = .error .roadmapNotFound) ∧
    (∀ rm, get_roadmap w rid = some rm → rm.is_published = true →
      publish_roadmap w rid now = .error .alreadyPublished) ∧
    (∀ rm, get_roadmap w rid = some rm → rm.is_published = false →
      (roadmapNodes w rid).length = 0 →
      publish_roadmap w rid now = .error .emptyRoadmap) ∧
    (∀ rm, get_roadmap w rid = some rm → rm.is_published = false →
      2 ≤ (roadmapNodes w rid).length → (roadmapEdges w rid).length = 0 →
      publish_roadmap w rid now = .error .disconnectedRoadmap) ∧
    (∀ rm, get_roadmap w rid = some rm → rm.is_published = false →
      (roadmapNodes w rid).length = 1 →
      ∃ w2 rm2, publish_roadmap w rid now = .ok (w2, rm2)) ∧
    (∀ w2 rm2, publish_roadmap w rid now = .ok (w2, rm2) →
      rm2.is_published = true ∧ rm2.published_at = some now) := by
  refine ⟨?_, ?_, ?_, ?_, ?_, ?_⟩
  · intro hnone
    unfold publish_roadmap
    rw [hnone]
  · intro rm hfind hpub
    unfold publish_roadmap
    rw [hfind]
    simp only [hpub, if_true]
  · intro rm hfind hpub hcount
    unfold publish_roadmap
    rw [hfind]
    simp only [hpub, Bool.false_eq_true, if_false]
    rw [if_pos hcount]
  · intro rm hfind hpub hcount hedges
    unfold publish_roadmap
    rw [hfind]
    simp only [hpub, Bool.false_eq_true, if_false]
    rw [if_neg (by omega)]
    rw [if_pos ⟨by omega, hedges⟩]
  · intro rm hfind hpub hcount
    unfold publish_roadmap
    rw [hfind]
    simp only [hpub, Bool.false_eq_true, if_false]
    rw [if_neg (by omega)]
    rw [if_neg (by
      rintro ⟨hgt, -⟩
      omega)]
    exact ⟨_, _, rfl⟩
  · intro w2 rm2 hok
    unfold publish_roadmap at hok
    rcases hfind : get_roadmap w rid with _ | rm
    · rw [hfind] at hok
      exact absurd hok (by simp)
    · rw [hfind] at hok
      simp only [] at hok
      by_cases hpub : rm.is_published
      · rw [if_pos hpub] at hok
        exact absurd hok (by simp)
      · rw [if_neg hpub] at hok
        by_cases hc0 : (roadmapNodes w rid).length = 0
        · rw [if_pos hc0] at hok
          exact absurd hok (by simp)
        · rw [if_neg hc0] at hok
          by_cases hdis : 1 < (roadmapNodes w rid).length ∧
              (roadmapEdges w rid).length = 0
          · rw [if_pos hdis] at hok
            exact absurd hok (by simp)
          · rw [if_neg hdis] at hok
            simp only [Except.ok.injEq, Prod.mk.injEq] at hok
            obtain ⟨-, hrm2⟩ := hok
            rw [← hrm2]
            exact ⟨rfl, rfl⟩

theorem publish_roadmap_spec_witness :
    ∃ w2 rm2, publish_roadmap exPubWorld 10 7 = .ok (w2, rm2) :=
  (publish_roadmap_spec exPubWorld 10 7).2.2.2.2.1
    ⟨10, 1, "1.0.0".data, "RM".data, none, false, true, none⟩
    (by decide) (by decide) (by decide)

theorem get_storage_key_inj_version (document_id : Nat) (v1 v2 : PyStr)
    (h : get_storage_key document_id v1 = get_storage_key document_id v2) :
    v1 = v2 := by
  unfold get_storage_key at h
  rw [List.append_assoc, List.append_assoc] at h
  have h2 := List.append_cancel_left (List.append_cancel_left h)
  injection h2 with h3 h4
  exact List.append_cancel_right h4

theorem storeLookup_storeSave_ne (st : ContentStore) (k k2 : PyStr)
    (c : DocContent) (h : k2 ≠ k) :
    storeLookup (storeSave st k c) k2 = storeLookup st k2 := by
  unfold storeSave storeLookup
  by_cases hany : st.any (fun p => decide (p.1 = k))
  · rw [if_pos hany]
    clear hany
    induction st with
    | nil => rfl
    | cons q rest ih =>
      rw [List.map_cons]
      by_cases hq : q.1 = k
      · rw [if_pos hq]
        rw [List.find?_cons_of_neg _ (by simp [Ne.symm h]), ih]
        rw [List.find?_cons_of_neg _ (by simp [hq, Ne.symm h])]
      · rw [if_neg hq]
        by_cases hq2 : q.1 = k2
        · rw [List.find?_cons_of_pos _ (by simp [hq2]),
            List.find?_cons_of_pos _ (by simp [hq2])]
        · rw [List.find?_cons_of_neg _ (by simp [hq2]),
            List.find?_cons_of_neg _ (by simp [hq2]), ih]
  · rw [if_neg hany]
    induction st with
    | nil =>
      simp only [List.nil_append]
      rw [List.find?_cons_of_neg _ (by simp [Ne.symm h])]
    | cons q rest ih =>
      rw [List.cons_append]
      by_cases hq2 : q.1 = k2
      · rw [List.find?_cons_of_pos _ (by simp [hq2]),
          List.find?_cons_of_pos _ (by simp [hq2])]
      · rw [List.find?_cons_of_neg _ (by simp [hq2]),
          List.find?_cons_of_neg _ (by simp [hq2])]
        exact ih (by
          intro habs
          exact hany (by
            rw [List.any_cons]
            simp [habs]))

/-- Inversion of a successful `update_document` call: recovers the loaded
rows, the version computation, and the exact shape of the new state. -/
theorem update_document_ok_inversion (s : DocState) (document_id : Nat)
    (content : DocContent) (vt : PyStr) (cs : Option PyStr) (cb : Option Nat)
    (now : Nat) (s2 : DocState) (d2 : Document) (rev : DocumentRevision)
    (hok : update_document s document_id content vt cs cb now = .ok (s2, d2, rev)) :
    ∃ document latest latest_content,
      get_document s document_id = some document ∧
      get_latest_revision s document_id = some latest ∧
      storeLookup s.store latest.storage_key = some latest_content ∧
      increment_version latest.version
        (resolve_version_type latest_content content vt) = some rev.version ∧
      rev.storage_key = get_storage_key document_id rev.version ∧
      rev.document_id = document_id ∧ rev.created_at = now ∧
      rev.change_summary = cs ∧ rev.created_by = cb ∧
      (∀ r ∈ s.revisions, ¬(r.document_id = document_id ∧ r.version = rev.version)) ∧
      s2.revisions = s.revisions ++ [rev] ∧
      s2.store = storeSave s.store rev.storage_key content ∧
      d2.updated_at = now ∧
      (content.title = none → d2.title = document.title) ∧
      (∀ t, content.title = some t → d2.title = t) ∧
      d2.id = document.id ∧ d2.description = document.description ∧
      d2.created_at = document.created_at := by
  unfold update_document at hok
  rcases hdoc : get_document s document_id with _ | document
  · rw [hdoc] at hok
    exact absurd hok (by simp)
  rw [hdoc] at hok
  simp only [] at hok
  rcases hlatest : get_latest_revision s document_id with _ | latest
  · rw [hlatest] at hok
    exact absurd hok (by simp)
  rw [hlatest] at hok
  simp only [] at hok
  rcases hcontent : storeLookup s.store latest.storage_key with _ | latest_content
  · rw [hcontent] at hok
    exact absurd hok (by simp)
  rw [hcontent] at hok
  simp only [] at hok
  rcases hinc : increment_version latest.version
      (resolve_version_type latest_content content vt) with _ | new_version
  · rw [hinc] at hok
    exact absurd hok (by simp)
  rw [hinc] at hok
  simp only [] at hok
  by_cases hdup : s.revisions.any (fun r =>
      decide (r.document_id = document_id) && decide (r.version = new_version))
  · rw [if_pos hdup] at hok
    exact absurd hok (by simp)
  rw [if_neg hdup] at hok
  simp only [Except.ok.injEq, Prod.mk.injEq] at hok
  obtain ⟨hs2, hd2, hrev⟩ := hok
  refine ⟨document, latest, latest_content, rfl, rfl, hcontent, ?_, ?_,
    ?_, ?_, ?_, ?_, ?_, ?_, ?_, ?_, ?_, ?_, ?_, ?_, ?_⟩
  · rw [← hrev]
    exact hinc
  · rw [← hrev]
  · rw [← hrev]
  · rw [← hrev]
  · rw [← hrev]
  · rw [← hrev]
  · intro r hr habs
    apply hdup
    rw [List.any_eq_true]
    refine ⟨r, hr, ?_⟩
    rw [← hrev] at habs
    simp [habs.1, habs.2]
  · rw [← hs2, ← hrev]
  · rw [← hs2, ← hrev]
  · rw [← hd2]
  · intro hnone
    rw [← hd2, hnone]
  · intro t ht
    rw [← hd2, ht]
  · rw [← hd2]
  · rw [← hd2]
  · rw [← hd2]

/-- C6: a successful `update_document` loaded the document, the latest
revision by `created_at`, and that revision's stored content; the new
revision's version is `increment_version` of the latest version under the
bump kind (classified from content exactly when `version_type` is
`"auto"`); its storage key is derived from the new version; the new
revision row is appended after the untouched prior rows; every blob other
than the new key — in particular the blob of any prior revision of this
document stored under its canonical key — is unchanged; the document's
title is overwritten exactly when the new content supplies one. -/
theorem update_document_spec (s : DocState) (document_id : Nat)
    (content : DocContent) (vt : PyStr) (cs : Option PyStr) (cb : Option Nat)
    (now : Nat) (s2 : DocState) (d2 : Document) (rev : DocumentRevision)
    (hok : update_document s document_id content vt cs cb now = .ok (s2, d2, rev)) :
    ∃ document latest latest_content,
      get_document s document_id = some document ∧
      get_latest_revision s document_id = some latest ∧
      storeLookup s.store latest.storage_key = some latest_content ∧
      increment_version latest.version
        (if vt = "auto".data then determine_version_type latest_content content
         else vt) = some rev.version ∧
      rev.storage_key = get_storage_key document_id rev.version ∧
      rev.created_at = now ∧
      s2.revisions = s.revisions ++ [rev] ∧
      (∀ key, key ≠ rev.storage_key →
        storeLookup s2.store key = storeLookup s.store key) ∧
      (∀ r ∈ s.revisions, r.document_id = document_id →
        r.storage_key = get_storage_key document_id r.version →
        storeLookup s2.store r.storage_key = storeLookup s.store r.storage_key) ∧
      (content.title = none → d2.title = document.title) ∧
      (∀ t, content.title = some t → d2.title = t) ∧
      d2.updated_at = now := by
  obtain ⟨document, latest, lc, h1, h2, h3, h4, h5, h6, h7, h8, h9, h10,
      h11, h12, h13, h14, h15, h16, h17, h18⟩ :=
    update_document_ok_inversion s document_id content vt cs cb now s2 d2 rev hok
  refine ⟨document, latest, lc, h1, h2, h3, h4, h5, h7, h11, ?_, ?_, h14, h15, h13⟩
  · intro key hkey
    rw [h12]
    exact storeLookup_storeSave_ne s.store rev.storage_key key content hkey
  · intro r hr hrd hrk
    have hne : r.storage_key ≠ rev.storage_key := by
      intro habs
      rw [hrk, h5] at habs
      exact h10 r hr ⟨hrd, get_storage_key_inj_version document_id r.version rev.version habs⟩
    rw [h12]
    exact storeLookup_storeSave_ne s.store rev.storage_key r.storage_key content hne

/-- C6 witness: on the concrete state, an `"auto"` update whose only
change grows one section by 10 characters yields the patch increment
`1.0.1` of the prior latest version `1.0.0`. -/
theorem update_document_spec_witness :
    update_document exDocState 1 exNewContent "auto".data none none 7 =
      .ok (exS2, exD2, exRev) ∧
    exRev.version = "1.0.1".data ∧
    (∃ document latest latest_content,
      get_document exDocState 1 = some document ∧
      get_latest_revision exDocState 1 = some latest ∧
      storeLookup exDocState.store latest.storage_key = some latest_content ∧
      increment_version latest.version
        (if "auto".data = "auto".data
         then determine_version_type latest_content exNewContent
         else "auto".data) = some exRev.version ∧
      exRev.storage_key = get_storage_key 1 exRev.version ∧
      exRev.created_at = 7 ∧
      exS2.revisions = exDocState.revisions ++ [exRev] ∧
      (∀ key, key ≠ exRev.storage_key →
        storeLookup exS2.store key = storeLookup exDocState.store key) ∧
      (∀ r ∈ exDocState.revisions, r.document_id = 1 →
        r.storage_key = get_storage_key 1 r.version →
        storeLookup exS2.store r.storage_key =
          storeLookup exDocState.store r.storage_key) ∧
      (exNewContent.title = none → exD2.title = document.title) ∧
      (∀ t, exNewContent.title = some t → exD2.title = t) ∧
      exD2.updated_at = 7) :=
  ⟨rfl, rfl,
    update_document_spec exDocState 1 exNewContent "auto".data none none 7
      exS2 exD2 exRev rfl⟩

/-- C10: a call without an explicit `version_type` uses the signature
default `"minor"`: on success the new revision's version is the minor
increment of the latest revision's version, and
`determine_version_type` is consulted exactly when `version_type` is the
string `"auto"` — any other bump kind passes through unchanged. -/
theorem update_document_default_minor (s : DocState) (document_id : Nat)
    (content : DocContent) (cs : Option PyStr) (cb : Option Nat) (now : Nat)
    (s2 : DocState) (d2 : Document) (rev : DocumentRevision)
    (hok : update_document_default s document_id content cs cb now = .ok (s2, d2, rev)) :
    (∃ latest, get_latest_revision s document_id = some latest ∧
      increment_version latest.version "minor".data = some rev.version) ∧
    (∀ lc c : DocContent, ∀ vt : PyStr, vt ≠ "auto".data →
      resolve_version_type lc c vt = vt) ∧
    (∀ lc c : DocContent,
      resolve_version_type lc c "auto".data = determine_version_type lc c) := by
  obtain ⟨document, latest, lc, h1, h2, h3, h4, h5, h6, h7, h8, h9, h10,
      h11, h12, h13, h14, h15, h16, h17, h18⟩ :=
    update_document_ok_inversion s document_id content "minor".data cs cb now s2 d2 rev hok
  refine ⟨⟨latest, h2, ?_⟩, ?_, ?_⟩
  · unfold resolve_version_type at h4
    rw [if_neg (by decide)] at h4
    exact h4
  · intro lc2 c2 vt hvt
    unfold resolve_version_type
    rw [if_neg hvt]
  · intro lc2 c2
    unfold resolve_version_type
    rw [if_pos rfl]

/-- C10 witness: the default update of the concrete state produces the
minor increment `1.1.0` of the latest version `1.0.0`. -/
theorem update_document_default_minor_witness :
    update_document_default exDocState 1 exNewContent none none 7 =
      .ok (exS2Minor, exD2, exRevMinor) ∧
    exRevMinor.version = "1.1.0".data ∧
    ((∃ latest, get_latest_revision exDocState 1 = some latest ∧
        increment_version latest.version "minor".data = some exRevMinor.version) ∧
      (∀ lc c : DocContent, ∀ vt : PyStr, vt ≠ "auto".data →
        resolve_version_type lc c vt = vt) ∧
      (∀ lc c : DocContent,
        resolve_version_type lc c "auto".data = determine_version_type lc c)) :=
  ⟨rfl, rfl,
    update_document_default_minor exDocState 1 exNewContent none none 7
      exS2Minor exD2 exRevMinor rfl⟩

/-- C8 counterexample: loading a missing key through
`DocumentService.load_content` surfaces the raw builtin
`FileNotFoundError`, not an error of the `ServiceError` taxonomy defined
in `services/exceptions.py` — the bare lower-level exception escapes the
component boundary untranslated. -/
theorem load_content_claim_counterexample :
    document_load_content [] "documents/1/1.0.0.json".data =
      .error (.fileNotFoundError
        ("Document content not found: documents/1/1.0.0.json".data)) ∧
    isServiceError (.fileNotFoundError
      ("Document content not found: documents/1/1.0.0.json".data)) = false :=
  ⟨rfl, rfl⟩

/-- C8 (amended): `load_content` on a missing key fails with the builtin
`FileNotFoundError` carrying the message
`"Document content not found: <key>"`; no code path of either storage
backend, nor the forwarding `DocumentService.load_content`, produces a
`ServiceError` taxonomy kind — the MinIO backend translates `NoSuchKey`
to the same builtin `FileNotFoundError` and any other `S3Error` to
`HTTPException(500)`. -/
theorem load_content_error_translation (fs : ContentStore) (key : PyStr) :
    (∀ c, document_load_content fs key = .ok c ↔ storeLookup fs key = some c) ∧
    (storeLookup fs key = none →
      document_load_content fs key =
        .error (.fileNotFoundError ("Document content not found: ".data ++ key))) ∧
    (∀ e, document_load_content fs key = .error e → isServiceError e = false) ∧
    (∀ g e, minio_load_content g key = .error e → isServiceError e = false) ∧
    minio_load_content (.error "NoSuchKey".data) key =
      .error (.fileNotFoundError ("Document content not found: ".data ++ key)) := by
  refine ⟨?_, ?_, ?_, ?_, ?_⟩
  · intro c
    unfold document_load_content local_load_content
    cases h : storeLookup fs key with
    | none => simp
    | some c2 => simp
  · intro h
    unfold document_load_content local_load_content
    rw [h]
  · intro e he
    unfold document_load_content local_load_content at he
    cases h : storeLookup fs key with
    | none =>
      rw [h] at he
      simp only [Except.error.injEq] at he
      rw [← he]
      rfl
    | some c =>
      rw [h] at he
      exact absurd he (by simp)
  · intro g e he
    unfold minio_load_content at he
    cases g with
    | ok c => exact absurd he (by simp)
    | error code =>
      simp only [] at he
      by_cases hc : code = "NoSuchKey".data
      · rw [if_pos hc] at he
        simp only [Except.error.injEq] at he
        rw [← he]
        rfl
      · rw [if_neg hc] at he
        simp only [Except.error.injEq] at he
        rw [← he]
        rfl
  · rfl

/-- C8 witness: on the empty store and a concrete key, the hypothesis of
the missing-key branch holds and the theorem yields the builtin
`FileNotFoundError`. -/
theorem load_content_error_translation_witness :
    storeLookup ([] : ContentStore) "k".data = none ∧
    document_load_content [] "k".data =
      .error (.fileNotFoundError
        ("Document content not found: ".data ++ "k".data)) :=
  ⟨rfl, (load_content_error_translation [] "k".data).2.1 rfl⟩

end MapStack
